import Mathlib

/-!
MADNESS runtime: task queue, work stealing, fence probe, tag allocation and
transport wrappers, with the command line of `startup`, the Redheffer matrix
of Elemental and the eigenvalue routine `odsq2`.

A shallow embedding of `src/lib/world/worldtask.cc`, of the tag allocator, the
exception and the transport wrappers of `src/lib/world/safempi.h`, of the
command-line loop of `src/madness/mra/startup.cc`, of
`src/elemental/include/elemental/matrices/Redheffer.hpp` and of
`src/elemental/external/pmrrr/src/lapack/odsq2.c` up to its dqds iteration,
followed by the properties proved about them.

Conventions of the embedding.

* Objects live in a store indexed by their address (`Ptr`).  A pointer to a
  `TaskInterface` is the address of a live object; a pointer that may be null
  is an `Option`.
* A method that mutates `*this` or an argument becomes a function from the
  store (`System`) to the store.
* An execution that dereferences a null pointer has no defined behaviour and
  is `none`.
* Diagnostic output (`madness::print`, `std::cerr`, `std::cout`) is not part of
  the state and is left out.
* The transport is a parameter: an assignment of a return code and an output
  value to every call; a wrapper maps the list of the transport calls made so
  far to its result, or the exception it raises, and the extended list.  The
  global mutex `SAFE_MPI_GLOBAL_MUTEX` is left out.
-/

namespace madness

/-! ## Data model -/

/-- Address of an object; two pointers are equal when the addresses are. -/
abbrev Ptr := Nat

/-- The process-group context `World`; the task queue reads only `id()`. -/
structure World where
  id : Nat
deriving DecidableEq, Repr

/-- Callback objects a dependency gate can hold.  `submit p` is the address of
the `submit` member of the task at `p`, built by `submit(this)` in both
constructors of `TaskInterface`. -/
inductive Callback where
  | submit (p : Ptr)
deriving DecidableEq, Repr

/-- State of a `TaskInterface` object, bases included: the countdown and the
registered callbacks of `DependencyInterface`, the stealable attribute of
`PoolTaskInterface`, and the members `world` and `completion`. -/
structure TaskInterface where
  ndepend : Int
  callbacks : List Callback
  stealable : Bool
  world : Option World
  completion : Option Ptr
deriving DecidableEq, Repr

/-- State of a `WorldTaskQueue`: the world it was built on and the counter
`nregistered`.  The counter is declared in `world/worldtask.h`, outside the
sources at hand; it is an integer here, and no count comes near the range of a
machine integer. -/
structure WorldTaskQueue where
  world : World
  nregistered : Int
deriving DecidableEq, Repr

/-- One entry of the pool's ready-queue, a `PoolTaskInterface*`: null, the
address of an object that is a `TaskInterface`, or the address of a pool task
of another class, whose only attribute read here is `is_stealable()`. -/
inductive Slot where
  | null
  | task (p : Ptr)
  | other (p : Ptr) (stealable : Bool)
deriving DecidableEq, Repr

/-- The store: task objects, queue objects, and the ready-queue of the thread
pool from front to back. -/
structure System where
  tasks : Ptr → TaskInterface
  queues : Ptr → WorldTaskQueue
  ready : List Slot

/-- Conversion of an `int` to `size_t` (64 bits). -/
def toSizeT (x : Int) : Nat := (x % 2 ^ 64).toNat

/-! ## TaskInterface -/

/-- Implements `TaskInterface::TaskInterface(int ndepend, const TaskAttributes attr)`. -/
def TaskInterface.new (ndepend : Int) (stealable : Bool) : TaskInterface :=
  { ndepend := ndepend, callbacks := [], stealable := stealable, world := none, completion := none }

/-- Implements `TaskInterface::TaskInterface(const TaskAttributes& attr)`. -/
def TaskInterface.newAttr (stealable : Bool) : TaskInterface :=
  { ndepend := 0, callbacks := [], stealable := stealable, world := none, completion := none }

/-- Implements `TaskInterface::set_info`. -/
def TaskInterface.set_info (t : TaskInterface) (world : Option World) (completion : Option Ptr) :
    TaskInterface :=
  { t with world := world, completion := completion }

/-- Implements `TaskInterface::get_world`. -/
def TaskInterface.get_world (t : TaskInterface) : Option World := t.world

/-- Accessor `DependencyInterface::ndep`. -/
def TaskInterface.ndep (t : TaskInterface) : Int := t.ndepend

/-- Accessor `PoolTaskInterface::is_stealable`. -/
def TaskInterface.is_stealable (t : TaskInterface) : Bool := t.stealable

/-- Replaces the task object stored at `p`. -/
def System.setTask (sys : System) (p : Ptr) (t : TaskInterface) : System :=
  { sys with tasks := Function.update sys.tasks p t }

/-- Replaces the queue object stored at `q`. -/
def System.setQueue (sys : System) (q : Ptr) (w : WorldTaskQueue) : System :=
  { sys with queues := Function.update sys.queues q w }

/-! ## Thread pool and dependency gate (headers outside `src/`) -/

/-- Modelled from the spec: `ThreadPool::add` of `world/worldthread.h`, which
is not part of the sources at hand.  Section 4.4: "enqueue a ready task for
execution by any worker". -/
def ThreadPool.add (sys : System) (p : Ptr) : System :=
  { sys with ready := sys.ready ++ [Slot.task p] }

/-- Modelled from the spec: `ThreadPool::scan` of `world/worldthread.h`, which
is not part of the sources at hand.  Section 4.4: it "synchronously visits
queued-but-not-yet-running tasks, letting a caller-supplied predicate decide,
for each, whether to remove it".  The operation receives a pointer to the slot
(its parameter is a `PoolTaskInterface**`), so it may overwrite the slot; the
visit goes from front to back and ends early when the operation returns
`false`. -/
def ThreadPool.scan {σ : Type} (op : σ → Slot → Option (Bool × σ × Slot)) :
    σ → List Slot → Option (σ × List Slot)
  | s, [] => some (s, [])
  | s, x :: xs =>
    match op s x with
    | none => none
    | some (false, s1, x1) => some (s1, x1 :: xs)
    | some (true, s1, x1) =>
      match ThreadPool.scan op s1 xs with
      | none => none
      | some (s2, xs1) => some (s2, x1 :: xs1)

/-- Modelled from the spec: `Submit::notify` of `world/worldtask.h`, which is
not part of the sources at hand.  Section 4.3: "submission happens
automatically when the gate fires". -/
def Callback.notify (sys : System) : Callback → System
  | Callback.submit p => ThreadPool.add sys p

/-- Modelled from the spec: `DependencyInterface::register_callback` of
`world/worlddep.h`, which is not part of the sources at hand.  Section 4.2:
the gate "fires a single ready notification when the count reaches zero", and
with a count of zero "the action fires immediately". -/
def DependencyInterface.register_callback (sys : System) (p : Ptr) (c : Callback) : System :=
  if (sys.tasks p).ndepend = 0 then
    Callback.notify sys c
  else
    sys.setTask p { sys.tasks p with callbacks := (sys.tasks p).callbacks ++ [c] }

/-- Modelled from the spec: `DependencyInterface::notify` of
`world/worlddep.h`, which is not part of the sources at hand.  Section 4.2:
"`notify()` atomically decrements the count; the transition from 1→0 triggers
exactly one firing of a registered ready action". -/
def DependencyInterface.notify (sys : System) (p : Ptr) : System :=
  let t := sys.tasks p
  if t.ndepend = 1 then
    t.callbacks.foldl Callback.notify (sys.setTask p { t with ndepend := 0, callbacks := [] })
  else
    sys.setTask p { t with ndepend := t.ndepend - 1 }

/-- Implements `TaskInterface::register_submit_callback`. -/
def TaskInterface.register_submit_callback (sys : System) (p : Ptr) : System :=
  DependencyInterface.register_callback sys p (Callback.submit p)

/-! ## WorldTaskQueue -/

/-- Implements `WorldTaskQueue::WorldTaskQueue(World& world)`. -/
def WorldTaskQueue.new (world : World) : WorldTaskQueue :=
  { world := world, nregistered := 0 }

/-- Implements `WorldTaskQueue::notify`. -/
def WorldTaskQueue.notify (sys : System) (q : Ptr) : System :=
  sys.setQueue q { sys.queues q with nregistered := (sys.queues q).nregistered - 1 }

/-- Implements `WorldTaskQueue::completion_status`. -/
def WorldTaskQueue.completion_status (left right : Bool) : Bool := left && right

/-- Implements `WorldTaskQueue::size`. -/
def WorldTaskQueue.size (sys : System) (q : Ptr) : Nat :=
  toSizeT (sys.queues q).nregistered

/-- Implements `WorldTaskQueue::add`. -/
def WorldTaskQueue.add (sys : System) (q : Ptr) (t : Ptr) : System :=
  let sys1 := sys.setQueue q { sys.queues q with nregistered := (sys.queues q).nregistered + 1 }
  let sys2 := sys1.setTask t ((sys1.tasks t).set_info (some (sys1.queues q).world) (some q))
  if (sys2.tasks t).ndep = 0 then
    ThreadPool.add sys2 t
  else
    TaskInterface.register_submit_callback sys2 t

/-- Implements `TaskInterface::~TaskInterface`; the completion sink of a task
is the queue that admitted it. -/
def TaskInterface.destroy (sys : System) (p : Ptr) : System :=
  match (sys.tasks p).completion with
  | some q => WorldTaskQueue.notify sys q
  | none => sys

/-- The function object `WorldTaskQueue::Stealer`: the queue `q`, the vector
`v` it fills, and the constant `nsteal` it was built with. -/
structure Stealer where
  q : Ptr
  v : List Ptr
  nsteal : Int
deriving DecidableEq, Repr

/-- Evaluates `t->is_stealable()` on the pointer held by a slot; a null pointer
cannot be dereferenced. -/
def Slot.is_stealable (sys : System) : Slot → Option Bool
  | Slot.null => none
  | Slot.task p => some (sys.tasks p).is_stealable
  | Slot.other _ stealable => some stealable

/-- Evaluates `dynamic_cast<TaskInterface*>(t)` on the pointer held by a slot. -/
def Slot.dynamic_cast : Slot → Option Ptr
  | Slot.task p => some p
  | _ => none

/-- Implements `WorldTaskQueue::Stealer::operator()`.  The result is the
returned flag, the stealer afterwards and the content of the slot `*pt`
afterwards. -/
def Stealer.call (sys : System) (st : Stealer) (pt : Slot) : Option (Bool × Stealer × Slot) :=
  match Slot.is_stealable sys pt with
  | none => none
  | some true =>
    match Slot.dynamic_cast pt with
    | some task =>
      match (sys.tasks task).get_world with
      | none => none
      | some w =>
        if w.id = (sys.queues st.q).world.id then
          some (true, { st with v := st.v ++ [task] }, Slot.null)
        else
          some (true, st, pt)
    | none => some (true, st, pt)
  | some false => some (true, st, pt)

/-- Implements `WorldTaskQueue::steal`. -/
def WorldTaskQueue.steal (sys : System) (q : Ptr) (nsteal : Int) : Option (List Ptr × System) :=
  let xxx : Stealer := { q := q, v := [], nsteal := nsteal }
  match ThreadPool.scan (Stealer.call sys) xxx sys.ready with
  | none => none
  | some (st, ready1) => some (st.v, { sys with ready := ready1 })

/-! ## Vocabulary of the statements about `steal` -/

/-- The slot holds a task that is marked stealable and whose world has the id
of the world of the queue `q`. -/
def Slot.eligible (sys : System) (q : Ptr) : Slot → Bool
  | Slot.task p =>
    (sys.tasks p).is_stealable &&
      (match (sys.tasks p).get_world with
       | some w => decide (w.id = (sys.queues q).world.id)
       | none => false)
  | _ => false

/-- The tasks of the eligible slots of a ready-queue, from front to back. -/
def eligibleTasks (sys : System) (q : Ptr) (ready : List Slot) : List Ptr :=
  ready.filterMap (fun s => if s.eligible sys q then s.dynamic_cast else none)

/-- The ready-queue with every eligible slot overwritten by null. -/
def clearEligible (sys : System) (q : Ptr) (ready : List Slot) : List Slot :=
  ready.map (fun s => if s.eligible sys q then Slot.null else s)

/-- The stealer can visit the slot without dereferencing a null pointer: the
slot is not null, and a task in it that is marked stealable has a world. -/
def Slot.visitable (sys : System) : Slot → Bool
  | Slot.null => false
  | Slot.task p => !(sys.tasks p).is_stealable || (sys.tasks p).get_world.isSome
  | Slot.other _ _ => true

/-- Every slot of the ready-queue can be visited by the stealer without
dereferencing a null pointer. -/
def stealDefined (sys : System) (ready : List Slot) : Bool :=
  ready.all (fun s => s.visitable sys)

/-- Scenario 5 of the specification: the queue at address 0 belongs to the
world W (id 1), the queue at address 1 to the world V (id 2); the tasks at
addresses 1 to 5 are stealable tasks of W, those at 6 to 10 stealable tasks of
V, and all ten are queued. -/
def scenarioWV : System :=
  { tasks := fun p =>
      { ndepend := 0, callbacks := [], stealable := true,
        world := some { id := if p ≤ 5 then 1 else 2 },
        completion := some (if p ≤ 5 then 0 else 1) },
    queues := fun q => { world := { id := q + 1 }, nregistered := 5 },
    ready := (List.range 10).map (fun i => Slot.task (i + 1)) }

/-- A ready-queue that holds the task at address 1 in two slots, as it does
after `add` was called twice with it; the queue at address 0 and the task
belong to the world with id 1. -/
def scenarioTwice : System :=
  { tasks := fun _ =>
      { ndepend := 0, callbacks := [], stealable := true,
        world := some { id := 1 }, completion := some 0 },
    queues := fun _ => { world := { id := 1 }, nregistered := 2 },
    ready := [Slot.task 1, Slot.task 1] }

/-! ## Sequences of calls -/

/-- The store after `k` calls of `notify()` on the dependency gate of the task
at `p`. -/
def notifyTimes (p : Ptr) : Nat → System → System
  | 0, sys => sys
  | k + 1, sys => notifyTimes p k (DependencyInterface.notify sys p)

/-- A call of a member function of one `WorldTaskQueue`. -/
inductive QueueOp where
  | add (t : Ptr)
  | notify
  | size
  | steal (nsteal : Int)
  | completion_status (left right : Bool)
deriving DecidableEq, Repr

/-- The store after one call on the queue at `q`; the value the call returns is
dropped. -/
def QueueOp.apply (q : Ptr) (sys : System) : QueueOp → Option System
  | QueueOp.add t => some (WorldTaskQueue.add sys q t)
  | QueueOp.notify => some (WorldTaskQueue.notify sys q)
  | QueueOp.size =>
    let _ := WorldTaskQueue.size sys q
    some sys
  | QueueOp.steal nsteal => (WorldTaskQueue.steal sys q nsteal).map (fun r => r.2)
  | QueueOp.completion_status left right =>
    let _ := WorldTaskQueue.completion_status left right
    some sys

/-- The store after a sequence of calls on the queue at `q`. -/
def runOps (q : Ptr) : List QueueOp → System → Option System
  | [], sys => some sys
  | op :: ops, sys =>
    match op.apply q sys with
    | none => none
    | some sys1 => runOps q ops sys1

/-- Number of calls of `add` in a sequence. -/
def countAdds : List QueueOp → Nat
  | [] => 0
  | QueueOp.add _ :: ops => countAdds ops + 1
  | _ :: ops => countAdds ops

/-- Number of calls of `notify` in a sequence. -/
def countNotifies : List QueueOp → Nat
  | [] => 0
  | QueueOp.notify :: ops => countNotifies ops + 1
  | _ :: ops => countNotifies ops

/-- The call is a `steal`. -/
def QueueOp.isSteal : QueueOp → Bool
  | QueueOp.steal _ => true
  | _ => false

/-- A store in which every task is as built by
`TaskInterface(const TaskAttributes&)` and every queue is as built on the
world with id 1, with an empty ready-queue. -/
def freshSystem : System :=
  { tasks := fun _ => TaskInterface.newAttr false,
    queues := fun _ => WorldTaskQueue.new { id := 1 },
    ready := [] }

/-- A store like `freshSystem` in which the task at address 7 was built by
`TaskInterface(2, attr)`. -/
def gatedSystem : System :=
  { tasks := fun p => if p = 7 then TaskInterface.new 2 false else TaskInterface.newAttr false,
    queues := fun _ => WorldTaskQueue.new { id := 1 },
    ready := [] }

/-! ## Fence -/

/-- Result of a call that may block: it returned a value, it raised, or the
observed run ended while the call was still waiting. -/
inductive Outcome (α : Type) where
  | returned (a : α)
  | raised (msg : String)
  | blocked

/-- What one evaluation observes of the rest of the process: the value of
`cpu_time()-start` at the test of `ProbeAllDone::operator()` and at its
assertion, and the store, which other threads change between two
observations. -/
structure Obs where
  elapsed1 : ℚ
  elapsed2 : ℚ
  sys : System

/-- Modelled from the spec: the macro `MADNESS_ASSERT` of
`world/worldexc.h`, which is not part of the sources at hand.  Section 7: a
violated condition is "reported as a fatal assertion". -/
def MADNESS_ASSERT (condition : Bool) : Except String Unit :=
  if condition then Except.ok () else Except.error "MADNESS ASSERTION FAILED"

/-- Implements `WorldTaskQueue::ProbeAllDone::operator()` for the probe of the
queue at `tq`, given the store and the two values of `cpu_time()-start` the
call computes. -/
def ProbeAllDone.call (sys : System) (tq : Ptr) (elapsed1 elapsed2 : ℚ) : Except String Bool :=
  if elapsed1 > 1200 then
    match MADNESS_ASSERT (decide (elapsed2 < 1200)) with
    | Except.error e => Except.error e
    | Except.ok _ => Except.ok (decide (WorldTaskQueue.size sys tq = 0))
  else
    Except.ok (decide (WorldTaskQueue.size sys tq = 0))

/-- Modelled from the spec: `World::await` of `world/world.h`, which is not
part of the sources at hand.  Section 4.3: "a polling loop", which evaluates
the probe until it holds; each evaluation consumes one observation. -/
def World.await (probe : Obs → Except String Bool) : List Obs → Outcome (List Obs)
  | [] => Outcome.blocked
  | o :: rest =>
    match probe o with
    | Except.error e => Outcome.raised e
    | Except.ok true => Outcome.returned rest
    | Except.ok false => World.await probe rest

/-- The probe `tester` of `fence` on the queue at `q`, evaluated on one
observation. -/
def WorldTaskQueue.tester (q : Ptr) (o : Obs) : Except String Bool :=
  ProbeAllDone.call o.sys q o.elapsed1 o.elapsed2

/-- Implements `WorldTaskQueue::fence` on the queue at `q`.  Each evaluation of
the loop condition `while (nregistered)` consumes one observation; the result
is the observation read by the last evaluation of the loop condition and the
observations left.  The second argument bounds the number of iterations of the
`do` loop. -/
def WorldTaskQueue.fence (q : Ptr) : Nat → List Obs → Outcome (Obs × List Obs)
  | 0, _ => Outcome.blocked
  | fuel + 1, env =>
    match World.await (WorldTaskQueue.tester q) env with
    | Outcome.raised e => Outcome.raised e
    | Outcome.blocked => Outcome.blocked
    | Outcome.returned [] => Outcome.blocked
    | Outcome.returned (o :: rest) =>
      if (o.sys.queues q).nregistered ≠ 0 then
        WorldTaskQueue.fence q fuel rest
      else
        Outcome.returned (o, rest)

/-- An observation of `freshSystem` in which the counter of every queue has the
value `n`, taken `e` seconds of processor time after the probe was built. -/
def obsCount (e : ℚ) (n : Int) : Obs :=
  { elapsed1 := e, elapsed2 := e,
    sys := { freshSystem with queues := fun _ => { world := { id := 1 }, nregistered := n } } }

end madness

namespace SafeMPI

/-! ## Tag allocation -/

/-- State of an `Intracomm::Impl`: the communicator handle, rank and size, and
the two tag counters. -/
structure Impl where
  comm : Nat
  me : Int
  numproc : Int
  utag : Int
  urtag : Int
deriving DecidableEq, Repr

/-- Implements `Intracomm::Impl::Impl`. -/
def Impl.new (c : Nat) (m n : Int) : Impl :=
  { comm := c, me := m, numproc := n, utag := 1024, urtag := 1 }

/-- Implements `Intracomm::Impl::unique_tag`: the returned tag and the state
afterwards. -/
def Impl.unique_tag (impl : Impl) : Int × Impl :=
  let result := impl.utag
  let utag1 := impl.utag + 1
  (result, { impl with utag := if utag1 ≥ 4095 then 1024 else utag1 })

/-- State after `k` calls of `unique_tag`. -/
def Impl.afterTags : Nat → Impl → Impl
  | 0, impl => impl
  | k + 1, impl => (Impl.unique_tag (Impl.afterTags k impl)).2

/-- Value returned by the call of `unique_tag` that follows `k` earlier calls. -/
def Impl.nthTag (k : Nat) (impl : Impl) : Int :=
  (Impl.unique_tag (Impl.afterTags k impl)).1

/-- The static tags assigned in `safempi.h`. -/
def RMI_TAG : Int := 1023

/-- Static tag of the acknowledgement of a huge message. -/
def RMI_HUGE_ACK_TAG : Int := 1022

/-- Static tag of the data of a huge message. -/
def RMI_HUGE_DAT_TAG : Int := 1021

/-- Static tag of the all-reduce. -/
def MPIAR_TAG : Int := 1001

/-- Static default tag of the send and receive overloads. -/
def DEFAULT_SEND_RECV_TAG : Int := 1000

/-- The five static tags in the order of their declaration. -/
def staticTags : List Int :=
  [RMI_TAG, RMI_HUGE_ACK_TAG, RMI_HUGE_DAT_TAG, MPIAR_TAG, DEFAULT_SEND_RECV_TAG]

/-- The failure raised by `MADNESS_EXCEPTION`: its message and its value. -/
structure MadnessException where
  msg : String
  value : Int
deriving DecidableEq, Repr

/-- Modelled from the spec: the macro `MADNESS_EXCEPTION` of
`world/worldexc.h`, which is not part of the sources at hand.  Section 7: the
misuse is "fatal"; the macro raises a failure that carries the message and the
value. -/
def MADNESS_EXCEPTION (msg : String) (value : Int) : MadnessException :=
  { msg := msg, value := value }

/-- Implements `Intracomm::Impl::unique_reserved_tag`: the returned tag or the
failure raised, and the state afterwards; the counter is incremented before
the test. -/
def Impl.unique_reserved_tag (impl : Impl) : Except MadnessException Int × Impl :=
  let result := impl.urtag
  let impl1 := { impl with urtag := impl.urtag + 1 }
  if result ≥ 1000 then
    (Except.error (MADNESS_EXCEPTION "too many reserved tags in use" result), impl1)
  else
    (Except.ok result, impl1)

/-- State after `k` calls of `unique_reserved_tag`. -/
def Impl.afterReserved : Nat → Impl → Impl
  | 0, impl => impl
  | k + 1, impl => (Impl.unique_reserved_tag (Impl.afterReserved k impl)).2

/-- Outcome of the call of `unique_reserved_tag` that follows `k` earlier
calls. -/
def Impl.nthReserved (k : Nat) (impl : Impl) : Except MadnessException Int :=
  (Impl.unique_reserved_tag (Impl.afterReserved k impl)).1

/-- A call of one of the two tag allocators. -/
inductive TagCall where
  | unique_tag
  | unique_reserved_tag
deriving DecidableEq, Repr

/-- What a call of a tag allocator gave: the tag of `unique_tag`, or the
outcome of `unique_reserved_tag`. -/
inductive TagResult where
  | tag (v : Int)
  | reserved (r : Except MadnessException Int)

/-- One call of a tag allocator: what it gave and the state afterwards. -/
def TagCall.apply (impl : Impl) : TagCall → TagResult × Impl
  | TagCall.unique_tag => (TagResult.tag (Impl.unique_tag impl).1, (Impl.unique_tag impl).2)
  | TagCall.unique_reserved_tag =>
    (TagResult.reserved (Impl.unique_reserved_tag impl).1, (Impl.unique_reserved_tag impl).2)

/-- A sequence of calls of the tag allocators, a failure of one call not ending
the sequence: what the calls gave, in order, and the state afterwards. -/
def runTagCalls : List TagCall → Impl → List TagResult × Impl
  | [], impl => ([], impl)
  | c :: cs, impl =>
    ((c.apply impl).1 :: (runTagCalls cs (c.apply impl).2).1,
      (runTagCalls cs (c.apply impl).2).2)

/-- Number of calls of `unique_reserved_tag` in a sequence. -/
def countReserved : List TagCall → Nat
  | [] => 0
  | TagCall.unique_reserved_tag :: cs => countReserved cs + 1
  | TagCall.unique_tag :: cs => countReserved cs

/-! ## Transport wrappers -/

/-- The operations of the transport (`mpi.h`) that the wrappers call. -/
inductive MpiOp where
  | Isend
  | Irecv
  | Send
  | Recv
  | Bcast
  | Reduce
  | Allreduce
  | Barrier
  | Comm_compare
  | Comm_rank
  | Comm_size
  | Finalize
  | Buffer_attach
  | Buffer_detach
  | Query_thread
  | Error_string
deriving DecidableEq, Repr

/-- One call of the transport: the operation and its integer arguments
(counts, datatype and operation handles, ranks, tags, communicator handles);
buffers are not part of the model. -/
structure MpiCall where
  op : MpiOp
  args : List Int
deriving DecidableEq, Repr

/-- The transport as the wrappers see it: the constants of `mpi.h` they use,
the return code and the integer written to the output argument by the call
that follows `k` earlier calls, and, for `MPI_Error_string`, the return code
and the content of the character array after the call. -/
structure Mpi where
  MPI_SUCCESS : Int
  MPI_IDENT : Int
  MPI_MAX_ERROR_STRING : Nat
  code : Nat → Int
  out : Nat → Int
  errorString : Int → Int × List Char

/-- A call of a transport operation: its return code and output, and the list
of the calls made so far extended by this one. -/
def Mpi.call (mpi : Mpi) (op : MpiOp) (args : List Int) (log : List MpiCall) :
    (Int × Int) × List MpiCall :=
  ((mpi.code log.length, mpi.out log.length), log ++ [{ op := op, args := args }])

/-- The terminator of a C string. -/
def NUL : Char := Char.ofNat 0

/-- The C string held by a character array: the characters before the first
terminator, or nothing when the array holds no terminator. -/
def cString (buf : List Char) : Option (List Char) :=
  if NUL ∈ buf then some (buf.takeWhile (fun ch => ch != NUL)) else none

/-- The first `n` characters of the destination after `std::strncpy(dest, src, n)`:
the characters of `src` before its terminator, at most `n` of them, padded
with terminators up to `n`. -/
def strncpy (src : List Char) (n : Nat) : List Char :=
  (src.takeWhile (fun ch => ch != NUL)).take n ++
    List.replicate (n - (src.takeWhile (fun ch => ch != NUL)).length) NUL

/-- The literal `"UNKNOWN MPI ERROR!"` as a character array. -/
def unknownErrorText : List Char := "UNKNOWN MPI ERROR!".toList ++ [NUL]

/-- State of a `SafeMPI::Exception`: the array `mpi_error_string_` of
`MPI_MAX_ERROR_STRING` characters. -/
structure Exception where
  mpi_error_string_ : List Char
deriving DecidableEq, Repr

/-- Implements `Exception::Exception(const int mpi_error)`: the exception built
and the calls of the transport made so far. -/
def Exception.new (mpi : Mpi) (mpi_error : Int) (log : List MpiCall) :
    Exception × List MpiCall :=
  let log1 := log ++ [{ op := MpiOp.Error_string, args := [mpi_error] }]
  if (mpi.errorString mpi_error).1 ≠ mpi.MPI_SUCCESS then
    ({ mpi_error_string_ := strncpy unknownErrorText mpi.MPI_MAX_ERROR_STRING }, log1)
  else
    ({ mpi_error_string_ := (mpi.errorString mpi_error).2 }, log1)

/-- Implements `Exception::Exception(const Exception& other)`. -/
def Exception.copy (mpi : Mpi) (other : Exception) : Exception :=
  { mpi_error_string_ := strncpy other.mpi_error_string_ mpi.MPI_MAX_ERROR_STRING }

/-- Implements `Exception::operator=`. -/
def Exception.assign (mpi : Mpi) (_self other : Exception) : Exception :=
  { mpi_error_string_ := strncpy other.mpi_error_string_ mpi.MPI_MAX_ERROR_STRING }

/-- Implements `Exception::what`: the C string held by `mpi_error_string_`. -/
def Exception.what (e : Exception) : Option (List Char) :=
  cString e.mpi_error_string_

/-- Implements the macro `MADNESS_MPI_TEST(condition)`, the condition being a
call of the transport; the value passed on when nothing is raised is the
output of the call. -/
def MADNESS_MPI_TEST (mpi : Mpi) (condition : List MpiCall → (Int × Int) × List MpiCall)
    (log : List MpiCall) : Except Exception Int × List MpiCall :=
  let mpi_error_code := (condition log).1.1
  if mpi_error_code ≠ mpi.MPI_SUCCESS then
    (Except.error (Exception.new mpi mpi_error_code (condition log).2).1,
      (Exception.new mpi mpi_error_code (condition log).2).2)
  else
    (Except.ok (condition log).1.2, (condition log).2)

/-- Implements `Intracomm::Intracomm(const MPI_Comm& comm)`. -/
def Intracomm.ofComm (mpi : Mpi) (comm : Nat) (log : List MpiCall) :
    Except Exception Impl × List MpiCall :=
  match MADNESS_MPI_TEST mpi (mpi.call MpiOp.Comm_rank [comm]) log with
  | (Except.error e, log1) => (Except.error e, log1)
  | (Except.ok rank, log1) =>
    match MADNESS_MPI_TEST mpi (mpi.call MpiOp.Comm_size [comm]) log1 with
    | (Except.error e, log2) => (Except.error e, log2)
    | (Except.ok size, log2) => (Except.ok (Impl.new comm rank size), log2)

/-- Implements `Intracomm::operator==`. -/
def Intracomm.eq (mpi : Mpi) (pimpl other : Impl) (log : List MpiCall) :
    Except Exception Bool × List MpiCall :=
  let r := mpi.call MpiOp.Comm_compare [pimpl.comm, other.comm] log
  (Except.ok (decide (r.1.1 = mpi.MPI_SUCCESS) && decide (r.1.2 = mpi.MPI_IDENT)), r.2)

/-- Implements `Intracomm::Isend`; the value returned is the request. -/
def Intracomm.Isend (mpi : Mpi) (pimpl : Impl) (count datatype dest tag : Int)
    (log : List MpiCall) : Except Exception Int × List MpiCall :=
  match MADNESS_MPI_TEST mpi (mpi.call MpiOp.Isend [count, datatype, dest, tag, pimpl.comm]) log with
  | (Except.error e, log1) => (Except.error e, log1)
  | (Except.ok request, log1) => (Except.ok request, log1)

/-- Implements `Intracomm::Irecv`; the value returned is the request. -/
def Intracomm.Irecv (mpi : Mpi) (pimpl : Impl) (count datatype src tag : Int)
    (log : List MpiCall) : Except Exception Int × List MpiCall :=
  match MADNESS_MPI_TEST mpi (mpi.call MpiOp.Irecv [count, datatype, src, tag, pimpl.comm]) log with
  | (Except.error e, log1) => (Except.error e, log1)
  | (Except.ok request, log1) => (Except.ok request, log1)

/-- Implements `Intracomm::Send`. -/
def Intracomm.Send (mpi : Mpi) (pimpl : Impl) (count datatype dest tag : Int)
    (log : List MpiCall) : Except Exception Unit × List MpiCall :=
  match MADNESS_MPI_TEST mpi (mpi.call MpiOp.Send [count, datatype, dest, tag, pimpl.comm]) log with
  | (Except.error e, log1) => (Except.error e, log1)
  | (Except.ok _, log1) => (Except.ok (), log1)

/-- Implements `Intracomm::Recv` with a status argument. -/
def Intracomm.Recv (mpi : Mpi) (pimpl : Impl) (count datatype source tag : Int)
    (log : List MpiCall) : Except Exception Unit × List MpiCall :=
  match MADNESS_MPI_TEST mpi (mpi.call MpiOp.Recv [count, datatype, source, tag, pimpl.comm]) log with
  | (Except.error e, log1) => (Except.error e, log1)
  | (Except.ok _, log1) => (Except.ok (), log1)

/-- Implements `Intracomm::Recv` without a status argument
(`MPI_STATUS_IGNORE`). -/
def Intracomm.RecvIgnore (mpi : Mpi) (pimpl : Impl) (count datatype source tag : Int)
    (log : List MpiCall) : Except Exception Unit × List MpiCall :=
  match MADNESS_MPI_TEST mpi (mpi.call MpiOp.Recv [count, datatype, source, tag, pimpl.comm]) log with
  | (Except.error e, log1) => (Except.error e, log1)
  | (Except.ok _, log1) => (Except.ok (), log1)

/-- Implements `Intracomm::Bcast`. -/
def Intracomm.Bcast (mpi : Mpi) (pimpl : Impl) (count datatype root : Int)
    (log : List MpiCall) : Except Exception Unit × List MpiCall :=
  match MADNESS_MPI_TEST mpi (mpi.call MpiOp.Bcast [count, datatype, root, pimpl.comm]) log with
  | (Except.error e, log1) => (Except.error e, log1)
  | (Except.ok _, log1) => (Except.ok (), log1)

/-- Implements `Intracomm::Reduce`. -/
def Intracomm.Reduce (mpi : Mpi) (pimpl : Impl) (count datatype op root : Int)
    (log : List MpiCall) : Except Exception Unit × List MpiCall :=
  match MADNESS_MPI_TEST mpi (mpi.call MpiOp.Reduce [count, datatype, op, root, pimpl.comm]) log with
  | (Except.error e, log1) => (Except.error e, log1)
  | (Except.ok _, log1) => (Except.ok (), log1)

/-- Implements `Intracomm::Allreduce`. -/
def Intracomm.Allreduce (mpi : Mpi) (pimpl : Impl) (count datatype op : Int)
    (log : List MpiCall) : Except Exception Unit × List MpiCall :=
  match MADNESS_MPI_TEST mpi (mpi.call MpiOp.Allreduce [count, datatype, op, pimpl.comm]) log with
  | (Except.error e, log1) => (Except.error e, log1)
  | (Except.ok _, log1) => (Except.ok (), log1)

/-- Implements `Intracomm::Barrier`. -/
def Intracomm.Barrier (mpi : Mpi) (pimpl : Impl) (log : List MpiCall) :
    Except Exception Unit × List MpiCall :=
  match MADNESS_MPI_TEST mpi (mpi.call MpiOp.Barrier [pimpl.comm]) log with
  | (Except.error e, log1) => (Except.error e, log1)
  | (Except.ok _, log1) => (Except.ok (), log1)

/-- Implements `SafeMPI::Query_thread`. -/
def Query_thread (mpi : Mpi) (log : List MpiCall) : Except Exception Int × List MpiCall :=
  match MADNESS_MPI_TEST mpi (mpi.call MpiOp.Query_thread []) log with
  | (Except.error e, log1) => (Except.error e, log1)
  | (Except.ok provided, log1) => (Except.ok provided, log1)

/-- Implements `SafeMPI::Detach_buffer`; the value returned is the size written
by the transport, the return code of the call is dropped. -/
def Detach_buffer (mpi : Mpi) (log : List MpiCall) : Except Exception Int × List MpiCall :=
  let r := mpi.call MpiOp.Buffer_detach [] log
  (Except.ok r.1.2, r.2)

/-- Implements `SafeMPI::Finalize`. -/
def Finalize (mpi : Mpi) (log : List MpiCall) : Except Exception Int × List MpiCall :=
  let r := mpi.call MpiOp.Finalize [] log
  (Except.ok r.1.1, r.2)

/-- A transport with `MPI_SUCCESS = 0` and `MPI_IDENT = 0` whose every call
returns the code `rc` and writes 0, and whose error strings are `"error"`
padded to 32 characters. -/
def constMpi (rc : Int) : Mpi :=
  { MPI_SUCCESS := 0, MPI_IDENT := 0, MPI_MAX_ERROR_STRING := 32,
    code := fun _ => rc, out := fun _ => 0,
    errorString := fun _ => (0, "error".toList ++ List.replicate 27 NUL) }

/-- A transport like `constMpi rc` whose lookup of error strings fails. -/
def mutedMpi (rc : Int) : Mpi :=
  { constMpi rc with errorString := fun _ => (1, []) }

/-- The calls of the transport made so far after one call of an operation
whose return code is tested by `MADNESS_MPI_TEST`: the call of the operation,
followed by the lookup of the error string when the return code is not
`MPI_SUCCESS`. -/
def testedTrace (mpi : Mpi) (log : List MpiCall) (op : MpiOp) (args : List Int) :
    List MpiCall :=
  log ++ { op := op, args := args } ::
    (if mpi.code log.length = mpi.MPI_SUCCESS then []
     else [{ op := MpiOp.Error_string, args := [mpi.code log.length] }])

/-- Number of calls of an operation among the calls of the transport made so
far. -/
def callsOf (op : MpiOp) (log : List MpiCall) : Nat :=
  log.countP (fun c => decide (c.op = op))

/-- A transport like `constMpi 0` whose comparison of communicators writes 1,
a result other than `MPI_IDENT`, as for two congruent communicators. -/
def congruentMpi : Mpi :=
  { constMpi 0 with out := fun _ => 1 }

/-- Implements the overload
`Intracomm::Send<T>(const T& datum, int dest, int tag=DEFAULT_SEND_RECV_TAG)`:
`MPI_BYTE` is the datatype handle of `mpi.h`, `sizeofT` is `sizeof(T)`, and
`tag` is `none` in a call that omits the argument. -/
def Intracomm.SendDatum (mpi : Mpi) (pimpl : Impl) (MPI_BYTE sizeofT dest : Int)
    (tag : Option Int) (log : List MpiCall) : Except Exception Unit × List MpiCall :=
  Intracomm.Send mpi pimpl sizeofT MPI_BYTE dest (tag.getD DEFAULT_SEND_RECV_TAG) log

/-- Implements the overload
`Intracomm::Recv<T>(T& buf, int src, int tag=DEFAULT_SEND_RECV_TAG)`, with the
conventions of `Intracomm.SendDatum`. -/
def Intracomm.RecvDatum (mpi : Mpi) (pimpl : Impl) (MPI_BYTE sizeofT src : Int)
    (tag : Option Int) (log : List MpiCall) : Except Exception Unit × List MpiCall :=
  Intracomm.RecvIgnore mpi pimpl sizeofT MPI_BYTE src (tag.getD DEFAULT_SEND_RECV_TAG) log

end SafeMPI

namespace madness

/-! ## Running a task -/

/-- The thread environment handed to a task: the number of threads and the id
of the calling thread. -/
structure TaskThreadEnv where
  nthread : Int
  id : Int
deriving DecidableEq, Repr

/-- How `TaskInterface::run(const TaskThreadEnv&)` fails: one of its own two
assertions is violated, or the virtual `run(World&, const TaskThreadEnv&)` it
invokes raised. -/
inductive RunFailure (E : Type) where
  | assertion (msg : String)
  | raised (e : E)

/-- Implements the default `TaskInterface::run(World&)`, which raises. -/
def TaskInterface.runWorld (_world : World) : Except SafeMPI.MadnessException Unit :=
  Except.error (SafeMPI.MADNESS_EXCEPTION
    "World TaskInterface: user did not implement one of run(world) or run(world, taskthreadenv)"
    0)

/-- Implements the default `TaskInterface::run(World&, const TaskThreadEnv&)`,
the body of a task whose class overrides neither `run`. -/
def TaskInterface.runWorldEnv (world : World) (env : TaskThreadEnv) :
    Except SafeMPI.MadnessException Unit :=
  if env.nthread ≠ 1 then
    Except.error (SafeMPI.MADNESS_EXCEPTION
      "World TaskInterface: user did not implement run(world, taskthreadenv) for multithreaded task"
      0)
  else
    TaskInterface.runWorld world

/-- Implements `TaskInterface::run(const TaskThreadEnv& env)`.  `body` is the
virtual `run(World&, const TaskThreadEnv&)` of the class of the task, which
returns or raises.  The result is the outcome of the call, the failure telling
a violated assertion of this function from what the body raised, and the list
of the invocations of the body made, each with its arguments.  The lines
written to `std::cerr` under `debug` are left out.  The last branch of the
innermost match is never taken: the first assertion has failed when the world
is null. -/
def TaskInterface.run {E : Type} (t : TaskInterface)
    (body : World → TaskThreadEnv → Except E Unit) (env : TaskThreadEnv) :
    Except (RunFailure E) Unit × List (World × TaskThreadEnv) :=
  match MADNESS_ASSERT t.world.isSome with
  | Except.error e => (Except.error (RunFailure.assertion e), [])
  | Except.ok _ =>
    match MADNESS_ASSERT t.completion.isSome with
    | Except.error e => (Except.error (RunFailure.assertion e), [])
    | Except.ok _ =>
      match t.world with
      | some w =>
        (match body w env with
          | Except.error e => Except.error (RunFailure.raised e)
          | Except.ok u => Except.ok u,
         [(w, env)])
      | none => (Except.ok (), [])

/-! ## Command line of `startup` -/

/-- What the command-line loop of `startup` does that can be observed: it reads
`argv[i]`, calls `xterm_debug` with a name, or calls `redirectio`. -/
inductive StartupEvent where
  | read (i : Nat)
  | xterm_debug (name : String)
  | redirectio
deriving DecidableEq, Repr

/-- The body of the loop `for (arg=1; arg<argc; ++arg)` of `madness::startup`
for one value of `arg`: the events of the iteration, in order, and whether the
iteration has a defined behaviour.  `argv` holds the `argc` arguments,
`argv[argc]` being the null pointer, which `std::atoi` cannot read; `atoi` is
`std::atoi` on a string. -/
def startupBody (atoi : String → Int) (argv : List String) (rank : Int) (arg : Nat) :
    List StartupEvent × Bool :=
  if argv[arg]? = some "-dx" then
    ([StartupEvent.read arg, StartupEvent.read 0,
      StartupEvent.xterm_debug (argv[0]?.getD "")], true)
  else if argv[arg]? = some "-lf" then
    ([StartupEvent.read arg, StartupEvent.read arg, StartupEvent.redirectio], true)
  else if argv[arg]? = some "-dn" then
    match argv[arg + 1]? with
    | none =>
      ([StartupEvent.read arg, StartupEvent.read arg, StartupEvent.read arg,
        StartupEvent.read (arg + 1)], false)
    | some next =>
      if atoi next = rank then
        ([StartupEvent.read arg, StartupEvent.read arg, StartupEvent.read arg,
          StartupEvent.read (arg + 1), StartupEvent.xterm_debug "world"], true)
      else if argv[arg]? = some "-rio" then
        ([StartupEvent.read arg, StartupEvent.read arg, StartupEvent.read arg,
          StartupEvent.read (arg + 1), StartupEvent.read arg, StartupEvent.redirectio], true)
      else
        ([StartupEvent.read arg, StartupEvent.read arg, StartupEvent.read arg,
          StartupEvent.read (arg + 1), StartupEvent.read arg], true)
  else if argv[arg]? = some "-rio" then
    ([StartupEvent.read arg, StartupEvent.read arg, StartupEvent.read arg,
      StartupEvent.read arg, StartupEvent.redirectio], true)
  else
    ([StartupEvent.read arg, StartupEvent.read arg, StartupEvent.read arg,
      StartupEvent.read arg], true)

/-- The loop `for (arg=1; arg<argc; ++arg)` of `madness::startup`, run from
`arg` for at most `count` iterations: the events, and whether every iteration
had a defined behaviour; the loop stops at an iteration that has none. -/
def startupLoop (atoi : String → Int) (argv : List String) (rank : Int) :
    Nat → Nat → List StartupEvent × Bool
  | 0, _ => ([], true)
  | count + 1, arg =>
    if (startupBody atoi argv rank arg).2 then
      ((startupBody atoi argv rank arg).1 ++ (startupLoop atoi argv rank count (arg + 1)).1,
        (startupLoop atoi argv rank count (arg + 1)).2)
    else
      startupBody atoi argv rank arg

/-- The command-line processing of `madness::startup(world, argc, argv)` with
`argc` the number of arguments. -/
def startupCommandLine (atoi : String → Int) (argv : List String) (rank : Int) :
    List StartupEvent × Bool :=
  startupLoop atoi argv rank (argv.length - 1) 1

/-- A stand-in for `std::atoi` that reads a decimal numeral and gives 0 on any
other string. -/
def atoiDecimal (s : String) : Int :=
  match s.toNat? with
  | some v => v
  | none => 0

end madness

namespace elem

/-! ## Redheffer matrix -/

/-- Modelled from the spec: the class `Matrix<T>` of Elemental, whose
declaration is not part of the sources at hand; the specification leaves dense
linear algebra to an external collaborator and says nothing more of it.  A
matrix is its height, its width and its entries by row and column index. -/
structure Matrix (T : Type) where
  height : Nat
  width : Nat
  entries : Nat → Nat → T

/-- Modelled from the spec: `Matrix<T>::Resize`, which is not part of the
sources at hand; it sets the dimensions. -/
def Matrix.Resize {T : Type} (R : Matrix T) (height width : Nat) : Matrix T :=
  { R with height := height, width := width }

/-- Modelled from the spec: `Matrix<T>::Set`, which is not part of the sources
at hand; it overwrites the entry of row `i` and column `j`. -/
def Matrix.Set {T : Type} (R : Matrix T) (i j : Nat) (alpha : T) : Matrix T :=
  { R with entries := fun i1 j1 => if i1 = i ∧ j1 = j then alpha else R.entries i1 j1 }

/-- The body of the inner loop of `Redheffer` for the row `i` of the column
`j`. -/
def RedhefferEntry {T : Type} [Zero T] [One T] (j : Nat) (R : Matrix T) (i : Nat) :
    Matrix T :=
  if j = 0 ∨ (j + 1) % (i + 1) = 0 then R.Set i j 1 else R.Set i j 0

/-- The inner loop `for( Int i=0; i<n; ++i )` of `Redheffer` for the column
`j`. -/
def RedhefferColumn {T : Type} [Zero T] [One T] (n : Nat) (R : Matrix T) (j : Nat) :
    Matrix T :=
  (List.range n).foldl (RedhefferEntry j) R

/-- Implements the sequential `elem::Redheffer(Matrix<T>& R, Int n)` for
`n ≥ 0`. -/
def Redheffer {T : Type} [Zero T] [One T] (R : Matrix T) (n : Nat) : Matrix T :=
  (List.range n).foldl (RedhefferColumn n) (R.Resize n n)

/-- A matrix of integers with no row and no column. -/
def emptyMatrix : Matrix Int :=
  { height := 0, width := 0, entries := fun _ _ => 7 }

end elem

namespace pmrrr

/-! ## The eigenvalue routine `odsq2`

The routine is embedded over an ordered field `K` with exact arithmetic, the
square root being a parameter; the array `Z` is a function of the index,
counted from 1 as in the routine after its parameter adjustment.  The error
handler `oerbla`, which only reports, is left out. -/

/-- How a call of `odsq2` ends in the part of the routine embedded here: it
returns with the array and `INFO`, or it enters the dqds iteration, which
calls `odsq3` and is not embedded, with the array and the trace. -/
inductive Odsq2Exit (K : Type) where
  | returned (z : Nat → K) (info : Int)
  | dqds (z : Nat → K) (trace : K)

/-- The value of `INFO` on return, when the call returns in the embedded
part. -/
def Odsq2Exit.info {K : Type} : Odsq2Exit K → Option Int
  | Odsq2Exit.returned _ info => some info
  | Odsq2Exit.dqds _ _ => none

/-- The array at the exit. -/
def Odsq2Exit.z {K : Type} : Odsq2Exit K → Nat → K
  | Odsq2Exit.returned z _ => z
  | Odsq2Exit.dqds z _ => z

/-- The first value of the shift `s` in the 2-by-2 case,
`z[3] * (z[2] / (t * (sqrt(s / t + 1.) + 1.)))`. -/
def odsq2ShiftLow {K : Type} [LinearOrderedField K] (sqrt : K → K) (q e t s : K) : K :=
  q * (e / (t * (sqrt (s / t + 1) + 1)))

/-- The second value of the shift `s` in the 2-by-2 case,
`z[3] * (z[2] / (t + sqrt(t) * sqrt(t + s)))`. -/
def odsq2ShiftHigh {K : Type} [LinearOrderedField K] (sqrt : K → K) (q e t s : K) : K :=
  q * (e / (t + sqrt t * sqrt (t + s)))

/-- The block `if (z__[2] > z__[3] * tol2) { ... }` of the 2-by-2 case. -/
def odsq2TwoShift {K : Type} [LinearOrderedField K] (sqrt : K → K) (z : Nat → K) : Nat → K :=
  let t := (z 1 - z 3 + z 2) * (1 / 2)
  let s := z 3 * (z 2 / t)
  let s1 := if s ≤ t then odsq2ShiftLow sqrt (z 3) (z 2) t s
    else odsq2ShiftHigh sqrt (z 3) (z 2) t s
  let t1 := z 1 + (s1 + z 2)
  Function.update (Function.update z 3 (z 3 * (z 1 / t1))) 1 t1

/-- The end of the 2-by-2 case, from `z__[5] = ...` on. -/
def odsq2TwoFinish {K : Type} [LinearOrderedField K] (sqrt : K → K) (tol2 : K) (z : Nat → K) :
    Nat → K :=
  let z5 := Function.update z 5 (z 1 + z 2 + z 3)
  let zs := if z5 2 > z5 3 * tol2 then odsq2TwoShift sqrt z5 else z5
  let z2 := Function.update zs 2 (zs 3)
  Function.update z2 6 (z2 2 + z2 1)

/-- The 2-by-2 case of `odsq2`. -/
def odsq2Two {K : Type} [LinearOrderedField K] (sqrt : K → K) (tol2 : K) (z : Nat → K) :
    Odsq2Exit K :=
  if z 2 < 0 ∨ z 3 < 0 then
    Odsq2Exit.returned z (-2)
  else if z 3 > z 1 then
    Odsq2Exit.returned
      (odsq2TwoFinish sqrt tol2 (Function.update (Function.update z 3 (z 1)) 1 (z 3))) 0
  else
    Odsq2Exit.returned (odsq2TwoFinish sqrt tol2 z) 0

/-- The sums and extrema accumulated by the loop that checks for negative
data. -/
structure Odsq2Sums (K : Type) where
  d : K
  e : K
  qmax : K
  emin : K
  zmax : K

/-- The loop `for (k = 1; k <= i__1; k += 2)` that checks for negative data,
run from `k` for `count` iterations: the value of `INFO` it returns with, or
the sums. -/
def odsq2Check {K : Type} [LinearOrderedField K] (z : Nat → K) :
    Nat → Nat → Odsq2Sums K → Except Int (Odsq2Sums K)
  | 0, _, acc => Except.ok acc
  | count + 1, k, acc =>
    if z k < 0 then
      Except.error (-((k : Int) + 200))
    else if z (k + 1) < 0 then
      Except.error (-((k : Int) + 201))
    else
      odsq2Check z count (k + 2)
        { d := acc.d + z k,
          e := acc.e + z (k + 1),
          qmax := max acc.qmax (z k),
          emin := min acc.emin (z (k + 1)),
          zmax := max (max (max acc.qmax (z k)) acc.zmax) (z (k + 1)) }

/-- The loop `for (k = 2; k <= i__1; ++k) z__[k] = z__[(k << 1) - 1]` of the
diagonal case, run from `k` for `count` iterations. -/
def odsq2MoveFront {K : Type} (z : Nat → K) : Nat → Nat → Nat → K
  | 0, _ => z
  | count + 1, k => odsq2MoveFront (Function.update z k (z (2 * k - 1))) count (k + 1)

/-- The case `n ≥ 3` of `odsq2` up to the dqds iteration; `odsrt n z` is the
array after `odsrt("D", n, &z__[1], &iinfo)`, a routine that is not part of
the sources at hand. -/
def odsq2General {K : Type} [LinearOrderedField K] (odsrt : Nat → (Nat → K) → Nat → K)
    (n : Nat) (z : Nat → K) : Odsq2Exit K :=
  let z0 := Function.update z (n * 2) 0
  match odsq2Check z0 (n - 1) 1
      { d := 0, e := 0, qmax := 0, emin := z0 2, zmax := 0 } with
  | Except.error info => Odsq2Exit.returned z0 info
  | Except.ok acc =>
    if z0 (n * 2 - 1) < 0 then
      Odsq2Exit.returned z0 (-((n : Int) * 2 + 199))
    else
      let d := acc.d + z0 (n * 2 - 1)
      if acc.e = 0 then
        Odsq2Exit.returned
          (Function.update (odsrt n (odsq2MoveFront z0 (n - 1) 2)) (n * 2 - 1) d) 0
      else if d + acc.e = 0 then
        Odsq2Exit.returned (Function.update z0 (n * 2 - 1) 0) 0
      else
        Odsq2Exit.dqds z0 (d + acc.e)

/-- Implements `odsq2(int *n, double *z__, int *info)` up to the dqds
iteration; `eps` is `DBL_EPSILON` and `sqrt` the square root of `math.h`. -/
def odsq2 {K : Type} [LinearOrderedField K] (sqrt : K → K) (eps : K)
    (odsrt : Nat → (Nat → K) → Nat → K) (n : Int) (z : Nat → K) : Odsq2Exit K :=
  let tol := eps * 100
  let tol2 := tol * tol
  if n < 0 then
    Odsq2Exit.returned z (-1)
  else if n = 0 then
    Odsq2Exit.returned z 0
  else if n = 1 then
    if z 1 < 0 then Odsq2Exit.returned z (-201) else Odsq2Exit.returned z 0
  else if n = 2 then
    odsq2Two sqrt tol2 z
  else
    odsq2General odsrt n.toNat z

/-- A routine that sorts the entries 1 to `n` of an array into decreasing
order and leaves the others, used as the argument `odsrt` in the examples. -/
def sortDecreasing (n : Nat) (z : Nat → Rat) : Nat → Rat :=
  fun i =>
    if 1 ≤ i ∧ i ≤ n then
      (((List.range n).map (fun k => z (k + 1))).insertionSort (fun a b => a ≥ b)).getD (i - 1) 0
    else z i

/-- The array whose first entries are those of the list and whose other
entries are zero. -/
def arrayOf (l : List Rat) : Nat → Rat :=
  fun i => if i = 0 then 0 else l.getD (i - 1) 0

/-- The value of `DBL_EPSILON` for IEEE double precision, `2^-52`. -/
def dblEpsilon : Rat := 1 / 4503599627370496

end pmrrr

namespace madness

/-! ## Work stealing -/

theorem stealDefined_spec (sys : System) (ready : List Slot) :
    stealDefined sys ready = true ↔
      Slot.null ∉ ready ∧
        ∀ p, Slot.task p ∈ ready → (sys.tasks p).is_stealable = true →
          (sys.tasks p).get_world ≠ none := by
  simp only [stealDefined, List.all_eq_true]
  constructor
  · intro h
    refine ⟨fun hn => by simpa [Slot.visitable] using h _ hn, ?_⟩
    intro p hp hs hw
    have := h _ hp
    simp [Slot.visitable, hs, hw] at this
  · rintro ⟨hn, hw⟩ s hs
    cases s with
    | null => exact absurd hs hn
    | other p b => rfl
    | task p =>
      by_cases hst : (sys.tasks p).is_stealable = true
      · have := hw p hs hst
        simp [Slot.visitable, hst, Option.isSome_iff_ne_none, this]
      · simp [Slot.visitable, hst]

theorem stealDefined_cons {sys : System} {x : Slot} {xs : List Slot}
    (h : stealDefined sys (x :: xs) = true) : stealDefined sys xs = true := by
  simp only [stealDefined, List.all_cons, Bool.and_eq_true] at h ⊢
  exact h.2

theorem Stealer.call_eq (sys : System) (st : Stealer) (x : Slot) (xs : List Slot)
    (hd : stealDefined sys (x :: xs) = true) :
    Stealer.call sys st x =
      some (true,
        { st with v := st.v ++ eligibleTasks sys st.q [x] },
        if x.eligible sys st.q then Slot.null else x) := by
  have h := (stealDefined_spec sys (x :: xs)).mp hd
  cases x with
  | null => exact absurd (List.mem_cons_self _ _) h.1
  | other p b =>
    cases b <;>
      simp [Stealer.call, Slot.is_stealable, Slot.dynamic_cast, Slot.eligible, eligibleTasks]
  | task p =>
    by_cases hs : (sys.tasks p).is_stealable = true
    · have hw := h.2 p (List.mem_cons_self _ _) hs
      cases hgw : (sys.tasks p).get_world with
      | none => exact absurd hgw hw
      | some w =>
        by_cases hid : w.id = (sys.queues st.q).world.id
        · simp [Stealer.call, Slot.is_stealable, Slot.dynamic_cast, Slot.eligible,
            eligibleTasks, hs, hgw, hid]
        · simp [Stealer.call, Slot.is_stealable, Slot.dynamic_cast, Slot.eligible,
            eligibleTasks, hs, hgw, hid]
    · simp [Stealer.call, Slot.is_stealable, Slot.eligible, eligibleTasks, hs]

theorem scan_stealer (sys : System) (ready : List Slot) :
    ∀ st : Stealer, stealDefined sys ready = true →
      ThreadPool.scan (Stealer.call sys) st ready =
        some ({ st with v := st.v ++ eligibleTasks sys st.q ready },
          clearEligible sys st.q ready) := by
  induction ready with
  | nil => intro st _; simp [ThreadPool.scan, eligibleTasks, clearEligible]
  | cons x xs ih =>
    intro st h
    have hx := Stealer.call_eq sys st x xs h
    have hxs := ih { st with v := st.v ++ eligibleTasks sys st.q [x] } (stealDefined_cons h)
    simp only [ThreadPool.scan, hx, hxs]
    simp [eligibleTasks, clearEligible, List.filterMap_cons]
    cases hfx : (if x.eligible sys st.q = true then x.dynamic_cast else none) <;> simp [hfx]

theorem steal_eq (sys : System) (q : Ptr) (nsteal : Int)
    (h : stealDefined sys sys.ready = true) :
    WorldTaskQueue.steal sys q nsteal =
      some (eligibleTasks sys q sys.ready,
        { sys with ready := clearEligible sys q sys.ready }) := by
  simp [WorldTaskQueue.steal, scan_stealer sys sys.ready _ h]

theorem eligible_task_iff (sys : System) (q p : Ptr) :
    (Slot.task p).eligible sys q = true ↔
      (sys.tasks p).is_stealable = true ∧
        ∃ w, (sys.tasks p).get_world = some w ∧ w.id = (sys.queues q).world.id := by
  cases hgw : (sys.tasks p).get_world <;> simp [Slot.eligible, hgw]

theorem mem_eligibleTasks (sys : System) (q p : Ptr) (ready : List Slot) :
    p ∈ eligibleTasks sys q ready ↔
      Slot.task p ∈ ready ∧ (Slot.task p).eligible sys q = true := by
  simp only [eligibleTasks, List.mem_filterMap]
  constructor
  · rintro ⟨s, hs, hp⟩
    cases s with
    | null => simp [Slot.eligible] at hp
    | other a b => simp [Slot.eligible] at hp
    | task a =>
      by_cases he : (Slot.task a).eligible sys q = true
      · simp [he, Slot.dynamic_cast] at hp
        subst hp
        exact ⟨hs, he⟩
      · simp [he] at hp
  · rintro ⟨hs, he⟩
    exact ⟨Slot.task p, hs, by simp [he, Slot.dynamic_cast]⟩

theorem count_eligibleTasks (sys : System) (q p : Ptr) (ready : List Slot)
    (he : (Slot.task p).eligible sys q = true) :
    (eligibleTasks sys q ready).count p = ready.count (Slot.task p) := by
  induction ready with
  | nil => simp [eligibleTasks]
  | cons x xs ih =>
    have hcons : eligibleTasks sys q (x :: xs)
        = eligibleTasks sys q [x] ++ eligibleTasks sys q xs := by
      simp only [eligibleTasks]
      rw [← List.filterMap_append]
      rfl
    rw [hcons, List.count_append, ih, List.count_cons]
    cases x with
    | null => simp [eligibleTasks, Slot.eligible]
    | other a b => simp [eligibleTasks, Slot.eligible]
    | task a =>
      by_cases hap : a = p
      · subst hap
        simp [eligibleTasks, he, Slot.dynamic_cast]
        omega
      · have h1 : ¬ (Slot.task a = Slot.task p) := fun h => hap (Slot.task.inj h)
        by_cases hea : (Slot.task a).eligible sys q = true
        · simp [eligibleTasks, hea, Slot.dynamic_cast, hap, h1, List.count_cons]
        · simp [eligibleTasks, hea, h1]

theorem task_not_mem_clearEligible (sys : System) (q p : Ptr) (ready : List Slot)
    (he : (Slot.task p).eligible sys q = true) :
    Slot.task p ∉ clearEligible sys q ready := by
  simp only [clearEligible, List.mem_map, not_exists, not_and]
  intro s _ hs
  by_cases hse : s.eligible sys q = true
  · simp [hse] at hs
  · simp [hse] at hs
    subst hs
    exact hse he

theorem getElem?_clearEligible (sys : System) (q : Ptr) (ready : List Slot) (i : Nat)
    (s : Slot) (hs : ready[i]? = some s) :
    (clearEligible sys q ready)[i]? =
      some (if s.eligible sys q then Slot.null else s) := by
  simp [clearEligible, List.getElem?_map, hs]

theorem filter_clearEligible (sys : System) (q : Ptr) (ready : List Slot)
    (hnull : Slot.null ∉ ready) :
    (clearEligible sys q ready).filter (fun s => decide (s ≠ Slot.null)) =
      ready.filter (fun s => !s.eligible sys q) := by
  induction ready with
  | nil => simp [clearEligible]
  | cons x xs ih =>
    have hx : x ≠ Slot.null := fun h => hnull (h ▸ List.mem_cons_self _ _)
    have ih1 := ih (fun h => hnull (List.mem_cons_of_mem _ h))
    simp only [clearEligible, List.map_cons, decide_not] at ih1 ⊢
    by_cases hxe : x.eligible sys q = true
    · simp [hxe, ih1]
    · simp [hxe, hx, ih1]

theorem Stealer.call_null (sys : System) (st : Stealer) :
    Stealer.call sys st Slot.null = none := rfl

theorem Stealer.call_null_world (sys : System) (st : Stealer) (p : Ptr)
    (hs : (sys.tasks p).is_stealable = true) (hw : (sys.tasks p).get_world = none) :
    Stealer.call sys st (Slot.task p) = none := by
  simp [Stealer.call, Slot.is_stealable, Slot.dynamic_cast, hs, hw]

theorem Stealer.call_flag (sys : System) (st st1 : Stealer) (x x1 : Slot) (b : Bool)
    (h : Stealer.call sys st x = some (b, st1, x1)) : b = true := by
  unfold Stealer.call at h
  split at h
  · exact absurd h (by simp)
  · split at h
    · split at h
      · exact absurd h (by simp)
      · split at h <;> simp at h <;> exact h.1
    · simp at h; exact h.1
  · simp at h; exact h.1

theorem scan_stealer_defined (sys : System) (ready : List Slot) :
    ∀ (st : Stealer) (r : Stealer × List Slot),
      ThreadPool.scan (Stealer.call sys) st ready = some r →
        stealDefined sys ready = true := by
  induction ready with
  | nil => intro _ _ _; rfl
  | cons x xs ih =>
    intro st r h
    rw [stealDefined_spec]
    cases hc : Stealer.call sys st x with
    | none => simp [ThreadPool.scan, hc] at h
    | some res =>
      obtain ⟨b, st1, x1⟩ := res
      have hb := Stealer.call_flag sys st st1 x x1 b hc
      subst hb
      cases hrec : ThreadPool.scan (Stealer.call sys) st1 xs with
      | none => simp [ThreadPool.scan, hc, hrec] at h
      | some r1 =>
        have hxs := (stealDefined_spec sys xs).mp (ih st1 r1 hrec)
        refine ⟨?_, ?_⟩
        · intro hmem
          rcases List.mem_cons.mp hmem with hx | hx
          · rw [← hx, Stealer.call_null] at hc
            exact absurd hc (by simp)
          · exact hxs.1 hx
        · intro p hmem hs hw
          rcases List.mem_cons.mp hmem with hx | hx
          · rw [← hx, Stealer.call_null_world sys st p hs hw] at hc
            exact absurd hc (by simp)
          · exact hxs.2 p hx hs hw

theorem steal_defined (sys : System) (q : Ptr) (nsteal : Int) (r : List Ptr × System)
    (h : WorldTaskQueue.steal sys q nsteal = some r) : stealDefined sys sys.ready = true := by
  unfold WorldTaskQueue.steal at h
  cases hs : ThreadPool.scan (Stealer.call sys) { q := q, v := [], nsteal := nsteal } sys.ready with
  | none => simp [hs] at h
  | some r1 => exact scan_stealer_defined sys sys.ready _ r1 hs

theorem steal_ignores_nsteal (sys : System) (q : Ptr) (n m : Int) :
    WorldTaskQueue.steal sys q n = WorldTaskQueue.steal sys q m := by
  by_cases h : stealDefined sys sys.ready = true
  · rw [steal_eq sys q n h, steal_eq sys q m h]
  · have hn : WorldTaskQueue.steal sys q n = none := by
      cases hs : WorldTaskQueue.steal sys q n with
      | none => rfl
      | some r => exact absurd (steal_defined sys q n r hs) h
    have hm : WorldTaskQueue.steal sys q m = none := by
      cases hs : WorldTaskQueue.steal sys q m with
      | none => rfl
      | some r => exact absurd (steal_defined sys q m r hs) h
    rw [hn, hm]

/-- C1 (behaviour of the code at the scenario of the claim): with five
stealable tasks of the world W and five of the world V queued, `steal(3)` on
the queue of W returns the five tasks of W, not three; the stealer never reads
`nsteal`. -/
theorem steal_three_returns_five :
    (WorldTaskQueue.steal scenarioWV 0 3).map (fun r => r.1) = some [1, 2, 3, 4, 5] := by
  decide

/-- C2 (refuted as stated): a task that is queued in two slots is returned
twice by `steal`, so it does not appear exactly once in the result. -/
theorem steal_twice_queued_returned_twice :
    ∃ (v : List Ptr) (sys1 : System),
      WorldTaskQueue.steal scenarioTwice 0 2 = some (v, sys1) ∧ ∃ p ∈ v, v.count p ≠ 1 :=
  ⟨[1, 1], { scenarioTwice with ready := [Slot.null, Slot.null] }, rfl, 1, by decide, by decide⟩

/-- C2 (amended): `steal` returns on every ready-queue it can visit without
dereferencing a null pointer, and for every ready-queue content every task it
returns is marked stealable, is a `TaskInterface` of the ready-queue whose
world id equals the id of the stealing queue's world, appears in the result as
many times as it had slots in the ready-queue, and every slot that held it is
null afterwards. -/
theorem steal_returns_eligible (sys : System) (q : Ptr) (nsteal : Int) :
    (stealDefined sys sys.ready = true →
      ∃ v sys1, WorldTaskQueue.steal sys q nsteal = some (v, sys1)) ∧
    ∀ v sys1, WorldTaskQueue.steal sys q nsteal = some (v, sys1) →
      ∀ p ∈ v,
        (sys.tasks p).is_stealable = true ∧
        (∃ w, (sys.tasks p).get_world = some w ∧ w.id = (sys.queues q).world.id) ∧
        Slot.task p ∈ sys.ready ∧
        v.count p = sys.ready.count (Slot.task p) ∧
        Slot.task p ∉ sys1.ready ∧
        ∀ i : Nat, sys.ready[i]? = some (Slot.task p) → sys1.ready[i]? = some Slot.null := by
  refine ⟨fun h => ⟨_, _, steal_eq sys q nsteal h⟩, ?_⟩
  intro v sys1 h p hp
  have hd := steal_defined sys q nsteal _ h
  rw [steal_eq sys q nsteal hd] at h
  simp only [Option.some.injEq, Prod.mk.injEq] at h
  obtain ⟨hv, hsys⟩ := h
  subst hv hsys
  obtain ⟨hmem, he⟩ := (mem_eligibleTasks sys q p sys.ready).mp hp
  obtain ⟨hst, hw⟩ := (eligible_task_iff sys q p).mp he
  refine ⟨hst, hw, hmem, count_eligibleTasks sys q p sys.ready he,
    task_not_mem_clearEligible sys q p sys.ready he, ?_⟩
  intro i hi
  have := getElem?_clearEligible sys q sys.ready i (Slot.task p) hi
  simpa [he] using this

/-- C2 (witness): in scenario 5 `steal` returns the tasks 1 to 5, and the task
at address 3 is stealable, queued once and returned once. -/
theorem steal_returns_eligible_witness :
    (∃ v sys1, WorldTaskQueue.steal scenarioWV 0 3 = some (v, sys1)) ∧
      WorldTaskQueue.steal scenarioWV 0 3 =
        some ([1, 2, 3, 4, 5],
          { scenarioWV with ready := clearEligible scenarioWV 0 scenarioWV.ready }) ∧
      (scenarioWV.tasks 3).is_stealable = true ∧
      List.count 3 [1, 2, 3, 4, 5] = scenarioWV.ready.count (Slot.task 3) :=
  have h : WorldTaskQueue.steal scenarioWV 0 3 =
      some ([1, 2, 3, 4, 5],
        { scenarioWV with ready := clearEligible scenarioWV 0 scenarioWV.ready }) := rfl
  have hp := (steal_returns_eligible scenarioWV 0 3).2 _ _ h 3 (by decide)
  ⟨(steal_returns_eligible scenarioWV 0 3).1 (by decide), h, hp.1, hp.2.2.2.1⟩

/-- C3: for every ready-queue content, `steal` changes no task object and no
queue object, keeps the number of slots, and leaves in its slot, unchanged,
every entry that is not a stealable task of the stealing queue's world (in
particular every task that is not stealable and every task of another world);
the entries that remain are the entries that were not eligible, in their
original order.  It returns on every ready-queue it can visit without
dereferencing a null pointer. -/
theorem steal_leaves_others (sys : System) (q : Ptr) (nsteal : Int) :
    (stealDefined sys sys.ready = true →
      ∃ v sys1, WorldTaskQueue.steal sys q nsteal = some (v, sys1)) ∧
    ∀ v sys1, WorldTaskQueue.steal sys q nsteal = some (v, sys1) →
      sys1.tasks = sys.tasks ∧ sys1.queues = sys.queues ∧
      sys1.ready.length = sys.ready.length ∧
      (∀ (i : Nat) (s : Slot),
        sys.ready[i]? = some s → s.eligible sys q = false → sys1.ready[i]? = some s) ∧
      (∀ (i : Nat) (p : Ptr), sys.ready[i]? = some (Slot.task p) →
        ((sys.tasks p).is_stealable = false ∨
          ∃ w, (sys.tasks p).get_world = some w ∧ w.id ≠ (sys.queues q).world.id) →
        sys1.ready[i]? = some (Slot.task p)) ∧
      sys1.ready.filter (fun s => decide (s ≠ Slot.null)) =
        sys.ready.filter (fun s => !s.eligible sys q) := by
  refine ⟨fun h => ⟨_, _, steal_eq sys q nsteal h⟩, ?_⟩
  intro v sys1 h
  have hd := steal_defined sys q nsteal _ h
  rw [steal_eq sys q nsteal hd] at h
  simp only [Option.some.injEq, Prod.mk.injEq] at h
  obtain ⟨hv, hsys⟩ := h
  subst hv hsys
  refine ⟨rfl, rfl, by simp [clearEligible], ?_, ?_,
    filter_clearEligible sys q sys.ready ((stealDefined_spec sys sys.ready).mp hd).1⟩
  · intro i s hi he
    have := getElem?_clearEligible sys q sys.ready i s hi
    simpa [he] using this
  · intro i p hi hne
    have he : (Slot.task p).eligible sys q = false := by
      rcases hne with hns | ⟨w, hw, hid⟩
      · simp [Slot.eligible, hns]
      · simp [Slot.eligible, hw, hid]
    have := getElem?_clearEligible sys q sys.ready i (Slot.task p) hi
    simpa [he] using this

/-- C3 (witness): in scenario 5 the five tasks of the world V are still queued,
in their order, after `steal(3)` on the queue of W. -/
theorem steal_leaves_others_witness :
    (∃ v sys1, WorldTaskQueue.steal scenarioWV 0 3 = some (v, sys1)) ∧
      WorldTaskQueue.steal scenarioWV 0 3 =
        some ([1, 2, 3, 4, 5],
          { scenarioWV with ready := clearEligible scenarioWV 0 scenarioWV.ready }) ∧
      (clearEligible scenarioWV 0 scenarioWV.ready).filter (fun s => decide (s ≠ Slot.null)) =
        [Slot.task 6, Slot.task 7, Slot.task 8, Slot.task 9, Slot.task 10] :=
  have h : WorldTaskQueue.steal scenarioWV 0 3 =
      some ([1, 2, 3, 4, 5],
        { scenarioWV with ready := clearEligible scenarioWV 0 scenarioWV.ready }) := rfl
  ⟨(steal_leaves_others scenarioWV 0 3).1 (by decide), h,
    ((steal_leaves_others scenarioWV 0 3).2 _ _ h).2.2.2.2.2.trans (by decide)⟩

/-! ## Admission and completion -/

theorem add_eq (sys : System) (q t : Ptr) :
    WorldTaskQueue.add sys q t =
      if (sys.tasks t).ndepend = 0 then
        { tasks := Function.update sys.tasks t
            ((sys.tasks t).set_info (some (sys.queues q).world) (some q)),
          queues := Function.update sys.queues q
            { sys.queues q with nregistered := (sys.queues q).nregistered + 1 },
          ready := sys.ready ++ [Slot.task t] }
      else
        { tasks := Function.update sys.tasks t
            { (sys.tasks t).set_info (some (sys.queues q).world) (some q) with
              callbacks := (sys.tasks t).callbacks ++ [Callback.submit t] },
          queues := Function.update sys.queues q
            { sys.queues q with nregistered := (sys.queues q).nregistered + 1 },
          ready := sys.ready } := by
  by_cases h : (sys.tasks t).ndepend = 0
  · simp [WorldTaskQueue.add, System.setQueue, System.setTask, ThreadPool.add,
      TaskInterface.set_info, TaskInterface.ndep, h]
  · simp [WorldTaskQueue.add, System.setQueue, System.setTask,
      TaskInterface.register_submit_callback, DependencyInterface.register_callback,
      TaskInterface.set_info, TaskInterface.ndep, h]

theorem add_queues (sys : System) (q t : Ptr) :
    (WorldTaskQueue.add sys q t).queues =
      Function.update sys.queues q
        { sys.queues q with nregistered := (sys.queues q).nregistered + 1 } := by
  rw [add_eq]
  split <;> rfl

theorem add_nregistered (sys : System) (q t : Ptr) :
    ((WorldTaskQueue.add sys q t).queues q).nregistered = (sys.queues q).nregistered + 1 := by
  simp [add_queues]

theorem add_completion (sys : System) (q t : Ptr) :
    ((WorldTaskQueue.add sys q t).tasks t).completion = some q := by
  rw [add_eq]
  split <;> simp [TaskInterface.set_info]

theorem notify_queues (sys : System) (q : Ptr) :
    (WorldTaskQueue.notify sys q).queues =
      Function.update sys.queues q
        { sys.queues q with nregistered := (sys.queues q).nregistered - 1 } := rfl

/-- C4: when the prerequisite count of the task is zero, `add` raises the
counter of the queue by exactly one, appends the task to the ready-queue of the
pool exactly once, and registers no callback on any task. -/
theorem add_ready_task (sys : System) (q t : Ptr) (h : (sys.tasks t).ndep = 0) :
    ((WorldTaskQueue.add sys q t).queues q).nregistered = (sys.queues q).nregistered + 1 ∧
    (WorldTaskQueue.add sys q t).ready = sys.ready ++ [Slot.task t] ∧
    (∀ p, ((WorldTaskQueue.add sys q t).tasks p).callbacks = (sys.tasks p).callbacks) ∧
    (∀ p, ((WorldTaskQueue.add sys q t).tasks p).ndep = (sys.tasks p).ndep) := by
  simp only [TaskInterface.ndep] at h
  refine ⟨add_nregistered sys q t, ?_, ?_, ?_⟩
  · rw [add_eq, if_pos h]
  · intro p
    rw [add_eq, if_pos h]
    by_cases hp : p = t
    · subst hp; simp [TaskInterface.set_info]
    · simp [hp]
  · intro p
    rw [add_eq, if_pos h]
    by_cases hp : p = t
    · subst hp; simp [TaskInterface.set_info, TaskInterface.ndep]
    · simp [hp]

/-- C4 (witness): admitting the zero-prerequisite task at address 3 to the
queue at address 0 of a fresh store gives a count of one and a ready-queue
holding exactly that task. -/
theorem add_ready_task_witness :
    ((WorldTaskQueue.add freshSystem 0 3).queues 0).nregistered = 0 + 1 ∧
      (WorldTaskQueue.add freshSystem 0 3).ready = [] ++ [Slot.task 3] :=
  have h := add_ready_task freshSystem 0 3 rfl
  ⟨h.1, h.2.1⟩

theorem notifyTimes_add (p : Ptr) (a b : Nat) :
    ∀ sys : System, notifyTimes p (a + b) sys = notifyTimes p b (notifyTimes p a sys) := by
  induction a with
  | zero => intro sys; simp [notifyTimes]
  | succ a ih =>
    intro sys
    rw [Nat.add_right_comm]
    simp only [notifyTimes]
    exact ih _

theorem notify_counting (sys : System) (p : Ptr) (h : (sys.tasks p).ndepend ≠ 1) :
    DependencyInterface.notify sys p =
      sys.setTask p { sys.tasks p with ndepend := (sys.tasks p).ndepend - 1 } := by
  simp [DependencyInterface.notify, h]

theorem notify_firing (sys : System) (p : Ptr) (h : (sys.tasks p).ndepend = 1)
    (hc : (sys.tasks p).callbacks = [Callback.submit p]) :
    DependencyInterface.notify sys p =
      { tasks := Function.update sys.tasks p
          { sys.tasks p with ndepend := 0, callbacks := [] },
        queues := sys.queues,
        ready := sys.ready ++ [Slot.task p] } := by
  simp [DependencyInterface.notify, h, hc, Callback.notify, ThreadPool.add, System.setTask]

theorem notifyTimes_counting (p : Ptr) (k : Nat) :
    ∀ (sys : System) (n : Int), (sys.tasks p).ndepend = n → (k : Int) < n →
      (notifyTimes p k sys).ready = sys.ready ∧
      (notifyTimes p k sys).queues = sys.queues ∧
      ((notifyTimes p k sys).tasks p).ndepend = n - k ∧
      ((notifyTimes p k sys).tasks p).callbacks = (sys.tasks p).callbacks := by
  induction k with
  | zero => intro sys n hn _; simp [notifyTimes, hn]
  | succ k ih =>
    intro sys n hn hk
    have hne : (sys.tasks p).ndepend ≠ 1 := by
      rw [hn]; push_cast at hk; omega
    simp only [notifyTimes, notify_counting sys p hne]
    have h1 := ih (sys.setTask p { sys.tasks p with ndepend := (sys.tasks p).ndepend - 1 })
      (n - 1) (by simp [System.setTask, hn]) (by push_cast at hk; omega)
    obtain ⟨hr, hq, hd, hcb⟩ := h1
    refine ⟨by rw [hr]; rfl, by rw [hq]; rfl, by rw [hd]; push_cast; ring, ?_⟩
    rw [hcb]
    simp [System.setTask]

theorem notifyTimes_spent (p : Ptr) (k : Nat) :
    ∀ sys : System, (sys.tasks p).callbacks = [] →
      (notifyTimes p k sys).ready = sys.ready := by
  induction k with
  | zero => intro sys _; rfl
  | succ k ih =>
    intro sys hc
    simp only [notifyTimes]
    by_cases h1 : (sys.tasks p).ndepend = 1
    · have hn : DependencyInterface.notify sys p =
          sys.setTask p { sys.tasks p with ndepend := 0, callbacks := [] } := by
        simp [DependencyInterface.notify, h1, hc]
      rw [hn, ih _ (by simp [System.setTask])]
      rfl
    · rw [notify_counting sys p h1, ih _ (by simp [System.setTask, hc])]
      rfl

theorem notifyTimes_idle (p : Ptr) (k : Nat) :
    ∀ sys : System, (sys.tasks p).callbacks = [] →
      (notifyTimes p k sys).ready = sys.ready ∧
      (notifyTimes p k sys).queues = sys.queues ∧
      ((notifyTimes p k sys).tasks p).ndepend = (sys.tasks p).ndepend - k ∧
      ((notifyTimes p k sys).tasks p).callbacks = [] := by
  induction k with
  | zero => intro sys hc; simp [notifyTimes, hc]
  | succ k ih =>
    intro sys hc
    simp only [notifyTimes]
    by_cases h1 : (sys.tasks p).ndepend = 1
    · have hn : DependencyInterface.notify sys p =
          sys.setTask p { sys.tasks p with ndepend := 0, callbacks := [] } := by
        simp [DependencyInterface.notify, h1, hc]
      obtain ⟨hr, hq, hd, hcb⟩ := ih (sys.setTask p { sys.tasks p with ndepend := 0, callbacks := [] })
        (by simp [System.setTask])
      rw [hn]
      refine ⟨by rw [hr]; rfl, by rw [hq]; rfl, ?_, hcb⟩
      rw [hd, h1]
      simp [System.setTask]
    · obtain ⟨hr, hq, hd, hcb⟩ := ih
        (sys.setTask p { sys.tasks p with ndepend := (sys.tasks p).ndepend - 1 })
        (by simp [System.setTask, hc])
      rw [notify_counting sys p h1]
      refine ⟨by rw [hr]; rfl, by rw [hq]; rfl, ?_, hcb⟩
      rw [hd]
      simp [System.setTask]
      ring

theorem notifyTimes_gated (p : Ptr) (M : Nat) (sys : System) (hM : 0 < M)
    (hd : (sys.tasks p).ndepend = M) (hc : (sys.tasks p).callbacks = [Callback.submit p])
    (j : Nat) :
    (notifyTimes p j sys).ready = sys.ready ++ (if M ≤ j then [Slot.task p] else []) := by
  by_cases hj : M ≤ j
  · rw [if_pos hj]
    obtain ⟨i, rfl⟩ : ∃ i, j = (M - 1) + (1 + i) := ⟨j - M, by omega⟩
    rw [notifyTimes_add, notifyTimes_add]
    obtain ⟨hr, _, hd1, hc1⟩ := notifyTimes_counting p (M - 1) sys M hd (by omega)
    have hd2 : ((notifyTimes p (M - 1) sys).tasks p).ndepend = 1 := by
      rw [hd1]; omega
    have hfire := notify_firing _ p hd2 (hc1.trans hc)
    have h1 : notifyTimes p 1 (notifyTimes p (M - 1) sys) =
        DependencyInterface.notify (notifyTimes p (M - 1) sys) p := rfl
    rw [h1, notifyTimes_spent p i _ (by rw [hfire]; simp), hfire]
    simp [hr]
  · rw [if_neg hj]
    obtain ⟨hr, _, _, _⟩ := notifyTimes_counting p j sys M hd (by omega)
    rw [hr]
    simp

/-- C5 (refuted as stated): the task at address 7 is built with two
prerequisites and both are notified before the task is passed to `add`; `add`
then finds the count at zero, appends the task to the ready-queue of the pool
during admission, and registers no callback. -/
theorem add_after_last_notification_submits :
    gatedSystem.tasks 7 = TaskInterface.new 2 false ∧
    (notifyTimes 7 2 gatedSystem).ready = [] ∧
    (WorldTaskQueue.add (notifyTimes 7 2 gatedSystem) 0 7).ready = [Slot.task 7] ∧
    ((WorldTaskQueue.add (notifyTimes 7 2 gatedSystem) 0 7).tasks 7).callbacks = [] := by
  refine ⟨rfl, rfl, ?_, ?_⟩
  · rw [add_eq]; rfl
  · rw [add_eq]; rfl

/-- C5 (amended): for a task built with `N` prerequisites, `N > 0` included,
of which `k ≤ N` are notified before the task is passed to `add`: when `k < N`, `add` leaves the
ready-queue of the pool as it was and registers the submit callback of the task
exactly once; when `k = N`, `add` appends the task to the ready-queue during
admission and registers no callback; in both cases, after `j` further
notifications the ready-queue holds one more entry than before the first
notification, the task, when `k + j ≥ N`, and is unchanged when `k + j < N`:
the task is submitted exactly once, when `N` notifications have been delivered
and the task has been admitted. -/
theorem add_gated_task (sys : System) (q t : Ptr) (N k : Nat) (stealable : Bool)
    (hk : k ≤ N) (ht : sys.tasks t = TaskInterface.new N stealable) :
    (k < N →
      (WorldTaskQueue.add (notifyTimes t k sys) q t).ready = sys.ready ∧
      ((WorldTaskQueue.add (notifyTimes t k sys) q t).tasks t).callbacks =
        [Callback.submit t]) ∧
    (k = N →
      (WorldTaskQueue.add (notifyTimes t k sys) q t).ready = sys.ready ++ [Slot.task t] ∧
      ((WorldTaskQueue.add (notifyTimes t k sys) q t).tasks t).callbacks = []) ∧
    (∀ i : Nat, i ≤ k → (notifyTimes t i sys).ready = sys.ready) ∧
    ∀ j : Nat, (notifyTimes t j (WorldTaskQueue.add (notifyTimes t k sys) q t)).ready =
      sys.ready ++ (if N ≤ k + j then [Slot.task t] else []) := by
  have hnd : (sys.tasks t).ndepend = N := by rw [ht]; rfl
  have hcb0 : (sys.tasks t).callbacks = [] := by rw [ht]; rfl
  obtain ⟨hr, _, hd, hc⟩ := notifyTimes_idle t k sys hcb0
  rw [hnd] at hd
  have hlt : k < N →
      (WorldTaskQueue.add (notifyTimes t k sys) q t).ready = sys.ready ∧
      ((WorldTaskQueue.add (notifyTimes t k sys) q t).tasks t).callbacks =
        [Callback.submit t] ∧
      ((WorldTaskQueue.add (notifyTimes t k sys) q t).tasks t).ndepend = ((N - k : Nat) : Int) := by
    intro hlt
    have hne : ¬ ((notifyTimes t k sys).tasks t).ndepend = 0 := by rw [hd]; omega
    rw [add_eq, if_neg hne]
    refine ⟨hr, by simp [hc], ?_⟩
    simp [TaskInterface.set_info, hd]
    omega
  have heq : k = N →
      (WorldTaskQueue.add (notifyTimes t k sys) q t).ready = sys.ready ++ [Slot.task t] ∧
      ((WorldTaskQueue.add (notifyTimes t k sys) q t).tasks t).callbacks = [] := by
    intro heq
    have hz : ((notifyTimes t k sys).tasks t).ndepend = 0 := by rw [hd]; omega
    rw [add_eq, if_pos hz]
    exact ⟨by simp [hr], by simp [TaskInterface.set_info, hc]⟩
  refine ⟨fun h => ⟨(hlt h).1, (hlt h).2.1⟩, heq, ?_, ?_⟩
  · intro i _
    exact (notifyTimes_idle t i sys hcb0).1
  · intro j
    rcases Nat.lt_or_ge k N with h | h
    · obtain ⟨h1, h2, h3⟩ := hlt h
      rw [notifyTimes_gated t (N - k) _ (by omega) h3 h2 j, h1]
      have : (N - k ≤ j) ↔ (N ≤ k + j) := by omega
      simp [this]
    · have hkN : k = N := le_antisymm hk h
      obtain ⟨h1, h2⟩ := heq hkN
      rw [notifyTimes_spent t j _ h2, h1, if_pos (by omega)]

/-- C5 (witness): the task at address 7, built with two prerequisites and
notified once before `add`, is not in the ready-queue after `add`, and is
there once after one further notification and after two; notified twice before
`add`, it is in the ready-queue once as soon as it is admitted. -/
theorem add_gated_task_witness :
    (WorldTaskQueue.add (notifyTimes 7 1 gatedSystem) 0 7).ready = [] ∧
      (notifyTimes 7 1 (WorldTaskQueue.add (notifyTimes 7 1 gatedSystem) 0 7)).ready =
        [Slot.task 7] ∧
      (notifyTimes 7 2 (WorldTaskQueue.add (notifyTimes 7 1 gatedSystem) 0 7)).ready =
        [Slot.task 7] ∧
      (notifyTimes 7 0 (WorldTaskQueue.add (notifyTimes 7 2 gatedSystem) 0 7)).ready =
        [Slot.task 7] :=
  have h := add_gated_task gatedSystem 0 7 2 1 false (by decide) rfl
  have h2 := add_gated_task gatedSystem 0 7 2 2 false (by decide) rfl
  ⟨(h.1 (by decide)).1, h.2.2.2 1, h.2.2.2 2, h2.2.2.2 0⟩

theorem steal_queues (sys : System) (q : Ptr) (nsteal : Int) (v : List Ptr) (sys1 : System)
    (h : WorldTaskQueue.steal sys q nsteal = some (v, sys1)) : sys1.queues = sys.queues := by
  unfold WorldTaskQueue.steal at h
  cases hs : ThreadPool.scan (Stealer.call sys) { q := q, v := [], nsteal := nsteal } sys.ready with
  | none => simp [hs] at h
  | some r =>
    simp [hs] at h
    rw [← h.2]

theorem apply_nregistered (q : Ptr) (op : QueueOp) (sys sys1 : System)
    (h : op.apply q sys = some sys1) :
    (sys1.queues q).nregistered =
      (sys.queues q).nregistered + (countAdds [op] : Int) - (countNotifies [op] : Int) := by
  cases op with
  | add t =>
    simp only [QueueOp.apply, Option.some.injEq] at h
    subst h
    simp [add_nregistered, countAdds, countNotifies]
  | notify =>
    simp only [QueueOp.apply, Option.some.injEq] at h
    subst h
    simp [notify_queues, countAdds, countNotifies]
  | size =>
    simp only [QueueOp.apply, Option.some.injEq] at h
    subst h
    simp [countAdds, countNotifies]
  | steal n =>
    cases hs : WorldTaskQueue.steal sys q n with
    | none => simp [QueueOp.apply, hs] at h
    | some r =>
      obtain ⟨v, s2⟩ := r
      simp only [QueueOp.apply, hs, Option.map_some', Option.some.injEq] at h
      subst h
      rw [steal_queues sys q n v s2 hs]
      simp [countAdds, countNotifies]
  | completion_status l r =>
    simp only [QueueOp.apply, Option.some.injEq] at h
    subst h
    simp [countAdds, countNotifies]

theorem countAdds_cons (op : QueueOp) (ops : List QueueOp) :
    countAdds (op :: ops) = countAdds [op] + countAdds ops := by
  cases op <;> simp [countAdds, Nat.add_comm]

theorem countNotifies_cons (op : QueueOp) (ops : List QueueOp) :
    countNotifies (op :: ops) = countNotifies [op] + countNotifies ops := by
  cases op <;> simp [countNotifies, Nat.add_comm]

theorem countAdds_le_length (ops : List QueueOp) : countAdds ops ≤ ops.length := by
  induction ops with
  | nil => simp [countAdds]
  | cons op ops ih => cases op <;> simp [countAdds] <;> omega

theorem runOps_nregistered (q : Ptr) (ops : List QueueOp) :
    ∀ sys sys1 : System, runOps q ops sys = some sys1 →
      (sys1.queues q).nregistered =
        (sys.queues q).nregistered + (countAdds ops : Int) - (countNotifies ops : Int) := by
  induction ops with
  | nil =>
    intro sys sys1 h
    simp only [runOps, Option.some.injEq] at h
    subst h
    simp [countAdds, countNotifies]
  | cons op ops ih =>
    intro sys sys1 h
    cases ha : op.apply q sys with
    | none => simp [runOps, ha] at h
    | some s2 =>
      simp only [runOps, ha] at h
      rw [ih s2 sys1 h, apply_nregistered q op sys s2 ha, countAdds_cons op ops,
        countNotifies_cons op ops]
      push_cast
      ring

theorem runOps_total (q : Ptr) (ops : List QueueOp) :
    ∀ sys : System, (∀ op ∈ ops, op.isSteal = false) → ∃ sys1, runOps q ops sys = some sys1 := by
  induction ops with
  | nil => intro sys _; exact ⟨sys, rfl⟩
  | cons op ops ih =>
    intro sys h
    have hop := h op (List.mem_cons_self _ _)
    have hops := fun o ho => h o (List.mem_cons_of_mem _ ho)
    cases op with
    | steal n => simp [QueueOp.isSteal] at hop
    | add t => exact ih _ hops
    | notify => exact ih _ hops
    | size => exact ih _ hops
    | completion_status l r => exact ih _ hops

theorem toSizeT_natCast (n : Nat) (h : n < 2 ^ 64) : toSizeT (n : Int) = n := by
  unfold toSizeT
  have h1 : ((n : Int) % 2 ^ 64) = n := by
    apply Int.emod_eq_of_lt
    · omega
    · exact_mod_cast h
  rw [h1]
  simp

/-- C6: the counter of a queue is zero after construction; after any sequence
of calls on the queue, in which every initial segment has at least as many
calls of `add` as of `notify`, the counter is the number of calls of `add`
minus the number of calls of `notify`, whatever calls of `size`, `steal` and
`completion_status` the sequence contains, and `size()` returns that number.
A sequence without `steal` always runs to its end. -/
theorem counter_tracks_calls (w : World) (sys : System) (q : Ptr) (ops : List QueueOp)
    (hq : sys.queues q = WorldTaskQueue.new w)
    (hpre : ∀ k ≤ ops.length, countNotifies (ops.take k) ≤ countAdds (ops.take k))
    (hlen : ops.length < 2 ^ 64) :
    (WorldTaskQueue.new w).nregistered = 0 ∧
    ((∀ op ∈ ops, op.isSteal = false) → ∃ sys1, runOps q ops sys = some sys1) ∧
    ∀ sys1, runOps q ops sys = some sys1 →
      (sys1.queues q).nregistered = (countAdds ops : Int) - (countNotifies ops : Int) ∧
      WorldTaskQueue.size sys1 q = countAdds ops - countNotifies ops := by
  refine ⟨rfl, runOps_total q ops sys, ?_⟩
  intro sys1 h
  have hn := runOps_nregistered q ops sys sys1 h
  have hle : countNotifies ops ≤ countAdds ops := by
    have := hpre ops.length (Nat.le_refl _)
    simpa using this
  have hz : (sys.queues q).nregistered = 0 := by rw [hq]; rfl
  rw [hz] at hn
  refine ⟨by rw [hn]; ring, ?_⟩
  have hcast : (sys1.queues q).nregistered = ((countAdds ops - countNotifies ops : Nat) : Int) := by
    rw [hn]; omega
  unfold WorldTaskQueue.size
  rw [hcast]
  apply toSizeT_natCast
  have := countAdds_le_length ops
  omega

/-- C6 (witness): add, size, add, steal, notify, completion_status on a fresh
queue leave a count of 2 - 1. -/
theorem counter_tracks_calls_witness :
    runOps 0 [QueueOp.add 1, QueueOp.size, QueueOp.add 2, QueueOp.steal 1, QueueOp.notify,
        QueueOp.completion_status true false] freshSystem ≠ none ∧
      ∀ sys1, runOps 0 [QueueOp.add 1, QueueOp.size, QueueOp.add 2, QueueOp.steal 1,
          QueueOp.notify, QueueOp.completion_status true false] freshSystem = some sys1 →
        (sys1.queues 0).nregistered = ((2 : Nat) : Int) - ((1 : Nat) : Int) ∧
        WorldTaskQueue.size sys1 0 = 2 - 1 :=
  ⟨by simp [runOps, QueueOp.apply, WorldTaskQueue.steal, ThreadPool.scan, Stealer.call,
      Slot.is_stealable, Slot.dynamic_cast, WorldTaskQueue.add, ThreadPool.add, freshSystem,
      System.setTask, System.setQueue, TaskInterface.ndep, TaskInterface.set_info,
      TaskInterface.newAttr, TaskInterface.is_stealable],
    (counter_tracks_calls { id := 1 } freshSystem 0 _ rfl (by decide) (by simp)).2.2⟩

/-! ## Destruction of a task -/

/-- C7: `add` makes the admitting queue the completion sink of the task;
destroying a task whose completion sink is the queue at `q` lowers the counter
of that queue by exactly one and changes no other queue, so that the count of
`q` after admission and destruction is the count before; a task as built by
either constructor has a null completion sink, and destroying a task with a
null completion sink changes nothing. -/
theorem destroy_notifies_sink (sys : System) (q t : Ptr) :
    ((WorldTaskQueue.add sys q t).tasks t).completion = some q ∧
    (∀ s : System, (s.tasks t).completion = some q →
      ((TaskInterface.destroy s t).queues q).nregistered = (s.queues q).nregistered - 1 ∧
      ∀ q1, q1 ≠ q → (TaskInterface.destroy s t).queues q1 = s.queues q1) ∧
    ((TaskInterface.destroy (WorldTaskQueue.add sys q t) t).queues q).nregistered =
      ((WorldTaskQueue.add sys q t).queues q).nregistered - 1 ∧
    (∀ (n : Int) (a : Bool), (TaskInterface.new n a).completion = none) ∧
    (∀ a : Bool, (TaskInterface.newAttr a).completion = none) ∧
    (∀ s : System, (s.tasks t).completion = none → TaskInterface.destroy s t = s) := by
  have hgen : ∀ s : System, (s.tasks t).completion = some q →
      ((TaskInterface.destroy s t).queues q).nregistered = (s.queues q).nregistered - 1 ∧
      ∀ q1, q1 ≠ q → (TaskInterface.destroy s t).queues q1 = s.queues q1 := by
    intro s hs
    simp only [TaskInterface.destroy, hs, notify_queues]
    refine ⟨by simp, ?_⟩
    intro q1 hq1
    simp [hq1]
  refine ⟨add_completion sys q t, hgen, (hgen _ (add_completion sys q t)).1,
    fun _ _ => rfl, fun _ => rfl, ?_⟩
  intro s hs
  simp [TaskInterface.destroy, hs]

/-- C7 (witness): after the task at address 3 was admitted to the queue at
address 0 of a fresh store and destroyed, the count of that queue is zero
again; destroying the never admitted task at address 4 changes nothing. -/
theorem destroy_notifies_sink_witness :
    ((TaskInterface.destroy (WorldTaskQueue.add freshSystem 0 3) 3).queues 0).nregistered = 0 ∧
      TaskInterface.destroy freshSystem 4 = freshSystem :=
  have h := destroy_notifies_sink freshSystem 0 3
  ⟨h.2.2.1.trans (by simp [add_nregistered, freshSystem, WorldTaskQueue.new]),
    (destroy_notifies_sink freshSystem 0 4).2.2.2.2.2 freshSystem rfl⟩

/-! ## Fence -/

theorem await_length (probe : Obs → Except String Bool) (env : List Obs) :
    ∀ rest, World.await probe env = Outcome.returned rest → rest.length < env.length := by
  induction env with
  | nil => intro rest h; simp [World.await] at h
  | cons o os ih =>
    intro rest h
    unfold World.await at h
    split at h
    · simp at h
    · simp only [Outcome.returned.injEq] at h
      subst h
      simp
    · have := ih rest h
      simp only [List.length_cons]
      omega

theorem fence_succ (q : Ptr) (fuel : Nat) (env : List Obs) (o : Obs) (rest : List Obs)
    (h : World.await (WorldTaskQueue.tester q) env = Outcome.returned (o :: rest)) :
    WorldTaskQueue.fence q (fuel + 1) env =
      if (o.sys.queues q).nregistered ≠ 0 then WorldTaskQueue.fence q fuel rest
      else Outcome.returned (o, rest) := by
  simp only [WorldTaskQueue.fence, h]

theorem fence_count_zero (q : Ptr) (fuel : Nat) :
    ∀ (env : List Obs) (o : Obs) (rest : List Obs),
      WorldTaskQueue.fence q fuel env = Outcome.returned (o, rest) →
        (o.sys.queues q).nregistered = 0 := by
  induction fuel with
  | zero => intro env o rest h; simp [WorldTaskQueue.fence] at h
  | succ fuel ih =>
    intro env o rest h
    cases ha : World.await (WorldTaskQueue.tester q) env with
    | raised e => simp [WorldTaskQueue.fence, ha] at h
    | blocked => simp [WorldTaskQueue.fence, ha] at h
    | returned l =>
      cases l with
      | nil => simp [WorldTaskQueue.fence, ha] at h
      | cons o1 rest1 =>
        rw [fence_succ q fuel env o1 rest1 ha] at h
        by_cases hz : (o1.sys.queues q).nregistered = 0
        · simp only [hz, ne_eq, not_true_eq_false, if_false, Outcome.returned.injEq,
            Prod.mk.injEq] at h
          rw [← h.1]
          exact hz
        · simp only [ne_eq, hz, not_false_eq_true, if_true] at h
          exact ih rest1 o rest h

theorem fence_fuel (q : Ptr) (fuel : Nat) :
    ∀ (env : List Obs) (fuel2 : Nat), env.length < fuel → fuel ≤ fuel2 →
      WorldTaskQueue.fence q fuel2 env = WorldTaskQueue.fence q fuel env := by
  induction fuel with
  | zero => intro env fuel2 h _; omega
  | succ fuel ih =>
    intro env fuel2 hlen hle
    obtain ⟨f2, rfl⟩ : ∃ f2, fuel2 = f2 + 1 := ⟨fuel2 - 1, by omega⟩
    cases ha : World.await (WorldTaskQueue.tester q) env with
    | raised e => simp [WorldTaskQueue.fence, ha]
    | blocked => simp [WorldTaskQueue.fence, ha]
    | returned l =>
      cases l with
      | nil => simp [WorldTaskQueue.fence, ha]
      | cons o1 rest1 =>
        rw [fence_succ q f2 env o1 rest1 ha, fence_succ q fuel env o1 rest1 ha]
        have hl := await_length _ env _ ha
        simp only [List.length_cons] at hl
        rw [ih rest1 f2 (by omega) (by omega)]

/-- C8: whenever `fence` returns, the count read by the last evaluation of its
loop condition is zero; whenever a wait inside `fence` completes and the loop
condition then reads a count of zero, `fence` returns there without waiting
again, and when it reads a count that is not zero `fence` does not return
there but waits again; the bound on the iterations plays no part once it
exceeds the number of observations. -/
theorem fence_returns_iff_count_zero (q : Ptr) :
    (∀ (fuel : Nat) (env : List Obs) (o : Obs) (rest : List Obs),
      WorldTaskQueue.fence q fuel env = Outcome.returned (o, rest) →
        (o.sys.queues q).nregistered = 0) ∧
    (∀ (fuel : Nat) (env : List Obs) (o : Obs) (rest : List Obs),
      World.await (WorldTaskQueue.tester q) env = Outcome.returned (o :: rest) →
        (o.sys.queues q).nregistered = 0 →
        WorldTaskQueue.fence q (fuel + 1) env = Outcome.returned (o, rest)) ∧
    (∀ (fuel : Nat) (env : List Obs) (o : Obs) (rest : List Obs),
      World.await (WorldTaskQueue.tester q) env = Outcome.returned (o :: rest) →
        (o.sys.queues q).nregistered ≠ 0 →
        WorldTaskQueue.fence q (fuel + 1) env = WorldTaskQueue.fence q fuel rest) ∧
    (∀ (fuel fuel2 : Nat) (env : List Obs), env.length < fuel → fuel ≤ fuel2 →
      WorldTaskQueue.fence q fuel2 env = WorldTaskQueue.fence q fuel env) := by
  refine ⟨fence_count_zero q, ?_, ?_, fun fuel fuel2 env => fence_fuel q fuel env fuel2⟩
  · intro fuel env o rest ha hz
    rw [fence_succ q fuel env o rest ha]
    simp [hz]
  · intro fuel env o rest ha hz
    rw [fence_succ q fuel env o rest ha]
    simp [hz]

/-- C8 (witness): the first wait is over at the second observation, the loop
condition then reads a count of 1 and `fence` waits again; the second wait is
over at the fourth observation, the loop condition reads 0 at the fifth, and
`fence` returns there. -/
theorem fence_returns_iff_count_zero_witness :
    WorldTaskQueue.fence 0 6
        [obsCount 1 2, obsCount 2 0, obsCount 3 1, obsCount 4 0, obsCount 5 0] =
      Outcome.returned (obsCount 5 0, []) ∧
    ((obsCount 5 0).sys.queues 0).nregistered = 0 :=
  have h : WorldTaskQueue.fence 0 6
      [obsCount 1 2, obsCount 2 0, obsCount 3 1, obsCount 4 0, obsCount 5 0] =
        Outcome.returned (obsCount 5 0, []) := by
    norm_num [WorldTaskQueue.fence, World.await, WorldTaskQueue.tester, ProbeAllDone.call,
      WorldTaskQueue.size, toSizeT, obsCount]
  ⟨h, (fence_returns_iff_count_zero 0).1 6 _ _ _ h⟩

theorem probe_no_raise (sys : System) (tq : Ptr) (e1 e2 : ℚ) (h : e1 ≤ 1200) :
    ProbeAllDone.call sys tq e1 e2 = Except.ok (decide (WorldTaskQueue.size sys tq = 0)) := by
  have : ¬ e1 > 1200 := not_lt.mpr h
  simp [ProbeAllDone.call, this]

theorem probe_raise (sys : System) (tq : Ptr) (e1 e2 : ℚ) (h : e1 > 1200) (hmono : e1 ≤ e2) :
    ProbeAllDone.call sys tq e1 e2 = Except.error "MADNESS ASSERTION FAILED" := by
  have h2 : ¬ e2 < 1200 := not_lt.mpr (le_trans (le_of_lt h) hmono)
  simp [ProbeAllDone.call, MADNESS_ASSERT, h, h2]

/-- C9: with a clock that does not go back (the elapsed time at the assertion
is at least the elapsed time at the test), the probe raises if and only if the
elapsed processor time at its test exceeds 1200, whatever the store and the
count of the queue; when the elapsed time is at most 1200 it raises nothing
and returns true exactly when `size()` of its queue is zero. -/
theorem probe_raises_iff_hung (sys : System) (tq : Ptr) (e1 e2 : ℚ) (hmono : e1 ≤ e2) :
    ((∃ msg, ProbeAllDone.call sys tq e1 e2 = Except.error msg) ↔ e1 > 1200) ∧
    (e1 ≤ 1200 →
      ProbeAllDone.call sys tq e1 e2 = Except.ok (decide (WorldTaskQueue.size sys tq = 0))) ∧
    (e1 ≤ 1200 →
      (ProbeAllDone.call sys tq e1 e2 = Except.ok true ↔ WorldTaskQueue.size sys tq = 0)) := by
  refine ⟨⟨?_, fun h => ⟨_, probe_raise sys tq e1 e2 h hmono⟩⟩, probe_no_raise sys tq e1 e2, ?_⟩
  · rintro ⟨msg, hmsg⟩
    by_contra hle
    rw [probe_no_raise sys tq e1 e2 (not_lt.mp hle)] at hmsg
    exact absurd hmsg (by simp)
  · intro h
    rw [probe_no_raise sys tq e1 e2 h]
    simp

/-- C9 (witness): 1300 seconds after the probe was built it raises although
the count is zero; after 1200 seconds exactly it raises nothing and returns
true for a count of zero. -/
theorem probe_raises_iff_hung_witness :
    (∃ msg, ProbeAllDone.call freshSystem 0 1300 1303 = Except.error msg) ∧
      ProbeAllDone.call freshSystem 0 1200 1203 = Except.ok true :=
  ⟨(probe_raises_iff_hung freshSystem 0 1300 1303 (by norm_num)).1.mpr (by norm_num),
   ((probe_raises_iff_hung freshSystem 0 1200 1203 (by norm_num)).2.2 (le_refl _)).mpr rfl⟩

end madness

namespace SafeMPI

/-! ## Tag allocation -/

theorem afterTags_utag (c : Nat) (m n : Int) (k : Nat) :
    (Impl.afterTags k (Impl.new c m n)).utag = 1024 + ((k % 3071 : Nat) : Int) := by
  induction k with
  | zero => simp [Impl.afterTags, Impl.new]
  | succ k ih =>
    simp only [Impl.afterTags, Impl.unique_tag, ih]
    split <;> omega

theorem nthTag_fresh (c : Nat) (m n : Int) (k : Nat) :
    Impl.nthTag k (Impl.new c m n) = 1024 + ((k % 3071 : Nat) : Int) := by
  simp [Impl.nthTag, Impl.unique_tag, afterTags_utag]

/-- C10: on a freshly created communicator context the call of `unique_tag`
that follows `k` earlier calls returns `1024 + (k mod 3071)`; every returned
value lies in [1024, 4094], and two calls less than 3071 calls apart return
distinct values. -/
theorem unique_tag_cycle (c : Nat) (m n : Int) :
    (∀ k : Nat, Impl.nthTag k (Impl.new c m n) = 1024 + ((k % 3071 : Nat) : Int)) ∧
    (∀ k : Nat, 1024 ≤ Impl.nthTag k (Impl.new c m n) ∧ Impl.nthTag k (Impl.new c m n) ≤ 4094) ∧
    (∀ i j : Nat, i < j → j < i + 3071 →
      Impl.nthTag i (Impl.new c m n) ≠ Impl.nthTag j (Impl.new c m n)) := by
  refine ⟨nthTag_fresh c m n, ?_, ?_⟩
  · intro k
    rw [nthTag_fresh]
    omega
  · intro i j hij hj
    rw [nthTag_fresh, nthTag_fresh]
    omega

/-- C10 (witness): the first call returns 1024, the call after 3070 calls
returns 4094, the call after 3071 calls returns 1024 again, and the calls
after 5 and after 3075 calls return distinct values. -/
theorem unique_tag_cycle_witness :
    Impl.nthTag 0 (Impl.new 0 0 1) = 1024 ∧
      Impl.nthTag 3070 (Impl.new 0 0 1) = 4094 ∧
      Impl.nthTag 3071 (Impl.new 0 0 1) = 1024 ∧
      Impl.nthTag 5 (Impl.new 0 0 1) ≠ Impl.nthTag 3075 (Impl.new 0 0 1) :=
  have h := unique_tag_cycle 0 0 1
  ⟨(h.1 0).trans (by decide), (h.1 3070).trans (by decide), (h.1 3071).trans (by decide),
    h.2.2 5 3075 (by decide) (by decide)⟩

/-- C11 (behaviour of the code): on a freshly created communicator context no
call of `unique_tag` returns 4095; the call that follows the one returning 4094
returns 1024. -/
theorem unique_tag_skips_4095 (c : Nat) (m n : Int) :
    (∀ k : Nat, Impl.nthTag k (Impl.new c m n) ≠ 4095) ∧
    Impl.nthTag 3070 (Impl.new c m n) = 4094 ∧
    Impl.nthTag 3071 (Impl.new c m n) = 1024 := by
  refine ⟨?_, ?_, ?_⟩
  · intro k
    rw [nthTag_fresh]
    omega
  · rw [nthTag_fresh]; decide
  · rw [nthTag_fresh]; decide

theorem afterTags_utag_congr (a b : Impl) (h : a.utag = b.utag) (k : Nat) :
    (Impl.afterTags k a).utag = (Impl.afterTags k b).utag := by
  induction k with
  | zero => exact h
  | succ k ih => simp only [Impl.afterTags, Impl.unique_tag, ih]

/-- C12: two communicator contexts whose round-robin counters are equal return
the same value at every call of `unique_tag`, and their counters are equal
after any number of calls; in particular two freshly created contexts agree at
every call. -/
theorem unique_tag_deterministic (a b : Impl) (h : a.utag = b.utag) :
    (∀ i : Nat, Impl.nthTag i a = Impl.nthTag i b) ∧
    (∀ i : Nat, (Impl.afterTags i a).utag = (Impl.afterTags i b).utag) := by
  refine ⟨?_, afterTags_utag_congr a b h⟩
  intro i
  simp only [Impl.nthTag, Impl.unique_tag]
  exact afterTags_utag_congr a b h i

/-- C12 (witness): the contexts of rank 0 and of rank 1 of a world of two
processes both get 1024, 1025, 1026 from their first three calls. -/
theorem unique_tag_deterministic_witness :
    Impl.nthTag 0 (Impl.new 0 0 2) = Impl.nthTag 0 (Impl.new 0 1 2) ∧
      Impl.nthTag 1 (Impl.new 0 0 2) = Impl.nthTag 1 (Impl.new 0 1 2) ∧
      Impl.nthTag 2 (Impl.new 0 0 2) = Impl.nthTag 2 (Impl.new 0 1 2) ∧
      Impl.nthTag 0 (Impl.new 0 0 2) = 1024 ∧
      Impl.nthTag 1 (Impl.new 0 0 2) = 1025 ∧
      Impl.nthTag 2 (Impl.new 0 0 2) = 1026 :=
  have h := (unique_tag_deterministic (Impl.new 0 0 2) (Impl.new 0 1 2) rfl).1
  ⟨h 0, h 1, h 2, by decide, by decide, by decide⟩

theorem afterReserved_urtag (impl : Impl) (k : Nat) :
    (Impl.afterReserved k impl).urtag = impl.urtag + k := by
  induction k with
  | zero => simp [Impl.afterReserved]
  | succ k ih =>
    simp only [Impl.afterReserved, Impl.unique_reserved_tag]
    split <;> simp [ih] <;> omega

theorem unique_reserved_tag_ok (impl : Impl) (h : impl.urtag < 1000) :
    (Impl.unique_reserved_tag impl).1 = Except.ok impl.urtag := by
  have : ¬ impl.urtag ≥ 1000 := by omega
  simp [Impl.unique_reserved_tag, this]

theorem unique_reserved_tag_error (impl : Impl) (h : impl.urtag ≥ 1000) :
    (Impl.unique_reserved_tag impl).1 =
      Except.error (MADNESS_EXCEPTION "too many reserved tags in use" impl.urtag) := by
  simp [Impl.unique_reserved_tag, h]

theorem unique_reserved_tag_urtag (impl : Impl) :
    (Impl.unique_reserved_tag impl).2.urtag = impl.urtag + 1 := by
  simp only [Impl.unique_reserved_tag]
  split <;> rfl

theorem unique_reserved_tag_utag (impl : Impl) :
    (Impl.unique_reserved_tag impl).2.utag = impl.utag := by
  simp only [Impl.unique_reserved_tag]
  split <;> rfl

theorem nthReserved_fresh_ok (c : Nat) (m n : Int) (k : Nat) (h : k < 999) :
    Impl.nthReserved k (Impl.new c m n) = Except.ok ((k : Int) + 1) := by
  have hu : (Impl.afterReserved k (Impl.new c m n)).urtag = (k : Int) + 1 := by
    rw [afterReserved_urtag]; simp [Impl.new]; ring
  rw [Impl.nthReserved, unique_reserved_tag_ok _ (by rw [hu]; omega), hu]

theorem nthReserved_fresh_error (c : Nat) (m n : Int) (k : Nat) (h : 999 ≤ k) :
    Impl.nthReserved k (Impl.new c m n) =
      Except.error (MADNESS_EXCEPTION "too many reserved tags in use" ((k : Int) + 1)) := by
  have hu : (Impl.afterReserved k (Impl.new c m n)).urtag = (k : Int) + 1 := by
    rw [afterReserved_urtag]; simp [Impl.new]; ring
  rw [Impl.nthReserved, unique_reserved_tag_error _ (by rw [hu]; omega), hu]

/-- C13 (refuted as stated): on a freshly created communicator context the
thousandth call of `unique_reserved_tag`, the one that follows 999 calls,
raises: it would hand out 1000. -/
theorem reserved_thousandth_call_raises :
    Impl.nthReserved 999 (Impl.new 0 0 1) =
      Except.error (MADNESS_EXCEPTION "too many reserved tags in use" 1000) :=
  nthReserved_fresh_error 0 0 1 999 (Nat.le_refl _)

/-- C13 (amended): on a freshly created communicator context
`unique_reserved_tag` succeeds exactly 999 times and then fails: each of the
first 999 calls returns a tag, and the thousandth call and every later call
raise the failure "too many reserved tags in use". -/
theorem reserved_succeeds_999_times (c : Nat) (m n : Int) :
    (∀ k : Nat, k < 999 → Impl.nthReserved k (Impl.new c m n) = Except.ok ((k : Int) + 1)) ∧
    (∀ k : Nat, 999 ≤ k → Impl.nthReserved k (Impl.new c m n) =
      Except.error (MADNESS_EXCEPTION "too many reserved tags in use" ((k : Int) + 1))) :=
  ⟨nthReserved_fresh_ok c m n, nthReserved_fresh_error c m n⟩

/-- C13 (witness): the call after 998 calls returns 999, the call after 999
calls raises with the value 1000. -/
theorem reserved_succeeds_999_times_witness :
    Impl.nthReserved 998 (Impl.new 0 0 1) = Except.ok (((998 : Nat) : Int) + 1) ∧
      Impl.nthReserved 999 (Impl.new 0 0 1) =
        Except.error (MADNESS_EXCEPTION "too many reserved tags in use" (((999 : Nat) : Int) + 1)) :=
  ⟨(reserved_succeeds_999_times 0 0 1).1 998 (by decide),
    (reserved_succeeds_999_times 0 0 1).2 999 (by decide)⟩

/-- C14: on a freshly created communicator context the `k`-th call of
`unique_reserved_tag`, for `1 ≤ k ≤ 999`, returns `k`; every value returned
lies in [1, 999]; of two calls that succeed the later one returns the larger
value; and in every state a call fails exactly when the value it would hand
out, the counter, is 1000 or more, and returns that value otherwise. -/
theorem reserved_tag_next_unused (c : Nat) (m n : Int) :
    (∀ k : Nat, 1 ≤ k → k ≤ 999 →
      Impl.nthReserved (k - 1) (Impl.new c m n) = Except.ok (k : Int)) ∧
    (∀ (k : Nat) (v : Int), Impl.nthReserved k (Impl.new c m n) = Except.ok v →
      1 ≤ v ∧ v ≤ 999) ∧
    (∀ (i j : Nat) (vi vj : Int), i < j →
      Impl.nthReserved i (Impl.new c m n) = Except.ok vi →
      Impl.nthReserved j (Impl.new c m n) = Except.ok vj → vi < vj) ∧
    (∀ impl : Impl,
      ((∃ e, (Impl.unique_reserved_tag impl).1 = Except.error e) ↔ impl.urtag ≥ 1000) ∧
      (impl.urtag < 1000 → (Impl.unique_reserved_tag impl).1 = Except.ok impl.urtag)) := by
  have hval : ∀ (k : Nat) (v : Int), Impl.nthReserved k (Impl.new c m n) = Except.ok v →
      k < 999 ∧ v = (k : Int) + 1 := by
    intro k v hv
    by_cases hk : k < 999
    · rw [nthReserved_fresh_ok c m n k hk] at hv
      exact ⟨hk, (Except.ok.inj hv).symm⟩
    · rw [nthReserved_fresh_error c m n k (by omega)] at hv
      exact absurd hv (by simp)
  refine ⟨?_, ?_, ?_, ?_⟩
  · intro k h1 h2
    rw [nthReserved_fresh_ok c m n (k - 1) (by omega)]
    congr 1
    omega
  · intro k v hv
    obtain ⟨hk, rfl⟩ := hval k v hv
    omega
  · intro i j vi vj hij hi hj
    obtain ⟨_, rfl⟩ := hval i vi hi
    obtain ⟨_, rfl⟩ := hval j vj hj
    omega
  · intro impl
    refine ⟨⟨?_, fun h => ⟨_, unique_reserved_tag_error impl h⟩⟩, unique_reserved_tag_ok impl⟩
    rintro ⟨e, he⟩
    by_contra hlt
    rw [unique_reserved_tag_ok impl (by omega)] at he
    exact absurd he (by simp)

/-- C14 (witness): the first call returns 1, the 999th call returns 999, and
the calls after 4 and after 7 earlier calls return 5 and 8. -/
theorem reserved_tag_next_unused_witness :
    Impl.nthReserved (1 - 1) (Impl.new 0 0 1) = Except.ok ((1 : Nat) : Int) ∧
      Impl.nthReserved (999 - 1) (Impl.new 0 0 1) = Except.ok ((999 : Nat) : Int) ∧
      ((5 : Int) < 8) :=
  have h := reserved_tag_next_unused 0 0 1
  ⟨h.1 1 (by decide) (by decide), h.1 999 (by decide) (by decide),
    h.2.2.1 4 7 5 8 (by decide) (h.1 5 (by decide) (by decide))
      (h.1 8 (by decide) (by decide))⟩

theorem unique_tag_bounds (impl : Impl) (h1 : 1024 ≤ impl.utag) (h2 : impl.utag ≤ 4094) :
    (Impl.unique_tag impl).1 = impl.utag ∧
    1024 ≤ (Impl.unique_tag impl).2.utag ∧ (Impl.unique_tag impl).2.utag ≤ 4094 ∧
    (Impl.unique_tag impl).2.urtag = impl.urtag := by
  simp only [Impl.unique_tag, true_and, and_true]
  constructor <;> split <;> omega

theorem runTagCalls_invariant (calls : List TagCall) :
    ∀ impl : Impl, 1024 ≤ impl.utag → impl.utag ≤ 4094 → 1 ≤ impl.urtag →
      (1024 ≤ (runTagCalls calls impl).2.utag ∧ (runTagCalls calls impl).2.utag ≤ 4094) ∧
      (runTagCalls calls impl).2.urtag = impl.urtag + countReserved calls ∧
      (∀ v, TagResult.tag v ∈ (runTagCalls calls impl).1 → 1024 ≤ v ∧ v ≤ 4094) ∧
      (∀ v, TagResult.reserved (Except.ok v) ∈ (runTagCalls calls impl).1 →
        1 ≤ v ∧ v ≤ 999) := by
  induction calls with
  | nil =>
    intro impl h1 h2 _
    simp [runTagCalls, countReserved, h1, h2]
  | cons c cs ih =>
    intro impl h1 h2 h3
    cases c with
    | unique_tag =>
      obtain ⟨hv, hb1, hb2, hr⟩ := unique_tag_bounds impl h1 h2
      obtain ⟨hu, hur, ht, hres⟩ := ih (Impl.unique_tag impl).2 hb1 hb2 (by rw [hr]; exact h3)
      simp only [runTagCalls, TagCall.apply, countReserved]
      refine ⟨hu, by rw [hur, hr], ?_, ?_⟩
      · intro v hmem
        rcases List.mem_cons.mp hmem with h | h
        · have : v = (Impl.unique_tag impl).1 := TagResult.tag.inj h
          rw [this, hv]
          exact ⟨h1, h2⟩
        · exact ht v h
      · intro v hmem
        rcases List.mem_cons.mp hmem with h | h
        · exact absurd h (by simp)
        · exact hres v h
    | unique_reserved_tag =>
      have hut := unique_reserved_tag_utag impl
      have hurt := unique_reserved_tag_urtag impl
      obtain ⟨hu, hur, ht, hres⟩ := ih (Impl.unique_reserved_tag impl).2
        (by rw [hut]; exact h1) (by rw [hut]; exact h2) (by rw [hurt]; omega)
      simp only [runTagCalls, TagCall.apply, countReserved]
      refine ⟨hu, by rw [hur, hurt]; push_cast; ring, ?_, ?_⟩
      · intro v hmem
        rcases List.mem_cons.mp hmem with h | h
        · exact absurd h (by simp)
        · exact ht v h
      · intro v hmem
        rcases List.mem_cons.mp hmem with h | h
        · have h0 : Except.ok v = (Impl.unique_reserved_tag impl).1 := TagResult.reserved.inj h
          by_cases hlt : impl.urtag < 1000
          · rw [unique_reserved_tag_ok impl hlt] at h0
            have : v = impl.urtag := Except.ok.inj h0
            omega
          · rw [unique_reserved_tag_error impl (by omega)] at h0
            exact absurd h0 (by simp)
        · exact hres v h

/-- C16: the five static tags are pairwise distinct and lie in [1000, 1023];
for every sequence of calls of the two allocators on a freshly created
communicator context every value returned by `unique_tag` lies in
[1024, 4094] and every value returned by `unique_reserved_tag` lies in
[1, 999], so that no value returned by one allocator is returned by the other
and none lies in [1000, 1023]. -/
theorem tag_ranges_disjoint (c : Nat) (m n : Int) (calls : List TagCall) :
    staticTags.Nodup ∧
    (∀ t ∈ staticTags, 1000 ≤ t ∧ t ≤ 1023) ∧
    (∀ v, TagResult.tag v ∈ (runTagCalls calls (Impl.new c m n)).1 → 1024 ≤ v ∧ v ≤ 4094) ∧
    (∀ v, TagResult.reserved (Except.ok v) ∈ (runTagCalls calls (Impl.new c m n)).1 →
      1 ≤ v ∧ v ≤ 999) ∧
    (∀ a b, TagResult.tag a ∈ (runTagCalls calls (Impl.new c m n)).1 →
      TagResult.reserved (Except.ok b) ∈ (runTagCalls calls (Impl.new c m n)).1 → a ≠ b) ∧
    (∀ v, (TagResult.tag v ∈ (runTagCalls calls (Impl.new c m n)).1 ∨
        TagResult.reserved (Except.ok v) ∈ (runTagCalls calls (Impl.new c m n)).1) →
      ¬ (1000 ≤ v ∧ v ≤ 1023)) := by
  obtain ⟨_, _, ht, hr⟩ := runTagCalls_invariant calls (Impl.new c m n)
    (by simp [Impl.new]) (by simp [Impl.new]) (by simp [Impl.new])
  refine ⟨by decide, by decide, ht, hr, ?_, ?_⟩
  · intro a b ha hb
    have := ht a ha
    have := hr b hb
    omega
  · intro v hv
    rcases hv with h | h
    · have := ht v h
      omega
    · have := hr v h
      omega

/-- C16 (witness): a reserved tag, a round-robin tag and a second reserved tag
taken in this order on a freshly created context are 1, 1024 and 2, and the
round-robin tag differs from both reserved tags. -/
theorem tag_ranges_disjoint_witness :
    TagResult.tag 1024 ∈ (runTagCalls
        [TagCall.unique_reserved_tag, TagCall.unique_tag, TagCall.unique_reserved_tag]
        (Impl.new 0 0 1)).1 ∧
      TagResult.reserved (Except.ok 2) ∈ (runTagCalls
        [TagCall.unique_reserved_tag, TagCall.unique_tag, TagCall.unique_reserved_tag]
        (Impl.new 0 0 1)).1 ∧
      (1024 : Int) ≠ 2 :=
  have h1 : TagResult.tag 1024 ∈ (runTagCalls
      [TagCall.unique_reserved_tag, TagCall.unique_tag, TagCall.unique_reserved_tag]
      (Impl.new 0 0 1)).1 := by
    simp [runTagCalls, TagCall.apply, Impl.unique_tag, Impl.unique_reserved_tag, Impl.new]
  have h2 : TagResult.reserved (Except.ok 2) ∈ (runTagCalls
      [TagCall.unique_reserved_tag, TagCall.unique_tag, TagCall.unique_reserved_tag]
      (Impl.new 0 0 1)).1 := by
    simp [runTagCalls, TagCall.apply, Impl.unique_tag, Impl.unique_reserved_tag, Impl.new]
  ⟨h1, h2, (tag_ranges_disjoint 0 0 1
    [TagCall.unique_reserved_tag, TagCall.unique_tag, TagCall.unique_reserved_tag]).2.2.2.2.1
      1024 2 h1 h2⟩

/-! ## Failures of the transport -/

theorem takeWhile_append_stop (p : Char → Bool) (s t : List Char)
    (hs : ∀ x ∈ s, p x = true) (ht : ∀ x, t.head? = some x → p x = false) :
    (s ++ t).takeWhile p = s := by
  induction s with
  | nil =>
    cases t with
    | nil => rfl
    | cons x xs =>
      have := ht x rfl
      simp [List.takeWhile, this]
  | cons a s ih =>
    have ha := hs a (List.mem_cons_self _ _)
    have hrec := ih (fun x hx => hs x (List.mem_cons_of_mem _ hx))
    simp only [List.cons_append, List.takeWhile_cons, ha, if_true, hrec]

theorem takeWhile_length_lt (p : Char → Bool) (buf : List Char)
    (h : ∃ x ∈ buf, p x = false) : (buf.takeWhile p).length < buf.length := by
  induction buf with
  | nil => obtain ⟨x, hx, _⟩ := h; simp at hx
  | cons a as ih =>
    by_cases ha : p a = true
    · simp only [List.takeWhile, ha, List.length_cons]
      obtain ⟨x, hx, hpx⟩ := h
      rcases List.mem_cons.mp hx with rfl | hmem
      · rw [ha] at hpx; exact absurd hpx (by simp)
      · have := ih ⟨x, hmem, hpx⟩
        omega
    · have ha2 : p a = false := by simpa using ha
      simp [List.takeWhile, ha2]

theorem cString_strncpy (buf : List Char) (n : Nat)
    (hlen : (buf.takeWhile (fun ch => ch != NUL)).length < n) :
    cString (strncpy buf n) = some (buf.takeWhile (fun ch => ch != NUL)) := by
  have htake : (buf.takeWhile (fun ch => ch != NUL)).take n =
      buf.takeWhile (fun ch => ch != NUL) := List.take_of_length_le (by omega)
  obtain ⟨k, hk⟩ : ∃ k, n - (buf.takeWhile (fun ch => ch != NUL)).length = k + 1 :=
    ⟨n - (buf.takeWhile (fun ch => ch != NUL)).length - 1, by omega⟩
  have hmem : NUL ∈ strncpy buf n := by
    simp [strncpy, hk, List.replicate_succ]
  have htw : (strncpy buf n).takeWhile (fun ch => ch != NUL) =
      buf.takeWhile (fun ch => ch != NUL) := by
    unfold strncpy
    rw [htake, hk, List.replicate_succ]
    apply takeWhile_append_stop
    · intro x hx
      exact @List.mem_takeWhile_imp Char (fun ch => ch != NUL) buf x hx
    · intro x hx
      simp only [List.head?_cons, Option.some.injEq] at hx
      subst hx
      simp
  simp [cString, hmem, htw]

theorem cString_some (buf s : List Char) (h : cString buf = some s) :
    NUL ∈ buf ∧ s = buf.takeWhile (fun ch => ch != NUL) := by
  unfold cString at h
  split at h
  · rename_i hm
    exact ⟨hm, (Option.some.inj h).symm⟩
  · exact absurd h (by simp)

theorem what_strncpy (mpi : Mpi) (e : Exception) (s : List Char)
    (hsize : e.mpi_error_string_.length = mpi.MPI_MAX_ERROR_STRING)
    (hs : e.what = some s) :
    cString (strncpy e.mpi_error_string_ mpi.MPI_MAX_ERROR_STRING) = some s := by
  obtain ⟨hm, rfl⟩ := cString_some _ _ hs
  apply cString_strncpy
  rw [← hsize]
  exact takeWhile_length_lt _ _ ⟨NUL, hm, by simp⟩

theorem what_unknown (n : Nat) (hn : 18 < n) :
    cString (strncpy unknownErrorText n) = some "UNKNOWN MPI ERROR!".toList := by
  have h : unknownErrorText.takeWhile (fun ch => ch != NUL) = "UNKNOWN MPI ERROR!".toList := by
    decide
  rw [cString_strncpy unknownErrorText n (by rw [h]; exact hn), h]

/-- C18: with an array of more than 18 characters, the exception built from a
transport error code holds the transport's own error string when the lookup
`MPI_Error_string` succeeds and the text "UNKNOWN MPI ERROR!" when the lookup
fails; a copy and an assignment of an exception hold the string of the
original; and what the exception holds is not empty when the strings the
transport writes are not empty. -/
theorem exception_text (mpi : Mpi) (mpi_error : Int) (log : List MpiCall)
    (hsize : 18 < mpi.MPI_MAX_ERROR_STRING) :
    ((mpi.errorString mpi_error).1 = mpi.MPI_SUCCESS →
      (Exception.new mpi mpi_error log).1.what = cString (mpi.errorString mpi_error).2) ∧
    ((mpi.errorString mpi_error).1 ≠ mpi.MPI_SUCCESS →
      (Exception.new mpi mpi_error log).1.what = some "UNKNOWN MPI ERROR!".toList) ∧
    (∀ (e e0 : Exception) (s : List Char),
      e.mpi_error_string_.length = mpi.MPI_MAX_ERROR_STRING → e.what = some s →
        (Exception.copy mpi e).what = some s ∧ (Exception.assign mpi e0 e).what = some s) ∧
    ((∀ s, cString (mpi.errorString mpi_error).2 = some s → s ≠ []) →
      (∃ s, cString (mpi.errorString mpi_error).2 = some s) →
      ∃ s, (Exception.new mpi mpi_error log).1.what = some s ∧ s ≠ []) := by
  have hok : (mpi.errorString mpi_error).1 = mpi.MPI_SUCCESS →
      (Exception.new mpi mpi_error log).1.what = cString (mpi.errorString mpi_error).2 := by
    intro h
    simp [Exception.new, Exception.what, h]
  have hfail : (mpi.errorString mpi_error).1 ≠ mpi.MPI_SUCCESS →
      (Exception.new mpi mpi_error log).1.what = some "UNKNOWN MPI ERROR!".toList := by
    intro h
    simp only [Exception.new, Exception.what, ne_eq, h, not_false_eq_true, if_true]
    exact what_unknown _ hsize
  refine ⟨hok, hfail, ?_, ?_⟩
  · intro e e0 s hlen hs
    exact ⟨what_strncpy mpi e s hlen hs, what_strncpy mpi e s hlen hs⟩
  · intro hne hex
    by_cases h : (mpi.errorString mpi_error).1 = mpi.MPI_SUCCESS
    · obtain ⟨s, hs⟩ := hex
      exact ⟨s, by rw [hok h]; exact hs, hne s hs⟩
    · exact ⟨_, hfail h, by decide⟩

/-- C18 (witness): with a transport whose lookup fails, the exception built
from the code 5 holds "UNKNOWN MPI ERROR!"; with a transport whose lookup
gives "error", the exception holds "error". -/
theorem exception_text_witness :
    (Exception.new (mutedMpi 5) 5 []).1.what = some "UNKNOWN MPI ERROR!".toList ∧
      (Exception.new (constMpi 5) 5 []).1.what =
        cString ((constMpi 5).errorString 5).2 ∧
      cString ((constMpi 5).errorString 5).2 = some "error".toList :=
  ⟨(exception_text (mutedMpi 5) 5 [] (by decide)).2.1 (by decide),
    (exception_text (constMpi 5) 5 [] (by decide)).1 rfl, by decide⟩

theorem test_ok (mpi : Mpi) (op : MpiOp) (args : List Int) (log : List MpiCall)
    (h : mpi.code log.length = mpi.MPI_SUCCESS) :
    MADNESS_MPI_TEST mpi (mpi.call op args) log =
      (Except.ok (mpi.out log.length), testedTrace mpi log op args) := by
  simp [MADNESS_MPI_TEST, Mpi.call, testedTrace, h]

theorem test_error (mpi : Mpi) (op : MpiOp) (args : List Int) (log : List MpiCall)
    (h : mpi.code log.length ≠ mpi.MPI_SUCCESS) :
    MADNESS_MPI_TEST mpi (mpi.call op args) log =
      (Except.error (Exception.new mpi (mpi.code log.length)
          (log ++ [{ op := op, args := args }])).1,
        testedTrace mpi log op args) := by
  simp only [MADNESS_MPI_TEST, Mpi.call, testedTrace, ne_eq, h, not_false_eq_true, if_true,
    if_false, Prod.mk.injEq, true_and]
  unfold Exception.new
  split <;> simp

theorem test_trace (mpi : Mpi) (op : MpiOp) (args : List Int) (log : List MpiCall) :
    (MADNESS_MPI_TEST mpi (mpi.call op args) log).2 = testedTrace mpi log op args := by
  by_cases h : mpi.code log.length = mpi.MPI_SUCCESS
  · rw [test_ok mpi op args log h]
  · rw [test_error mpi op args log h]

theorem test_raises_iff (mpi : Mpi) (condition : List MpiCall → (Int × Int) × List MpiCall)
    (log : List MpiCall) :
    (∃ e, (MADNESS_MPI_TEST mpi condition log).1 = Except.error e) ↔
      (condition log).1.1 ≠ mpi.MPI_SUCCESS := by
  unfold MADNESS_MPI_TEST
  by_cases h : (condition log).1.1 = mpi.MPI_SUCCESS
  · simp [h]
  · simp [h]

theorem callsOf_testedTrace (mpi : Mpi) (log : List MpiCall) (op : MpiOp) (args : List Int)
    (hop : op ≠ MpiOp.Error_string) :
    callsOf op (testedTrace mpi log op args) = callsOf op log + 1 := by
  have hne : ¬ (MpiOp.Error_string = op) := fun h => hop h.symm
  unfold callsOf testedTrace
  split <;> simp [List.countP_append, List.countP_cons, hne]

theorem Send_eq (mpi : Mpi) (pimpl : Impl) (count datatype dest tag : Int) (log : List MpiCall) :
    Intracomm.Send mpi pimpl count datatype dest tag log =
      (if mpi.code log.length = mpi.MPI_SUCCESS then Except.ok ()
        else Except.error (Exception.new mpi (mpi.code log.length)
          (log ++ [{ op := MpiOp.Send, args := [count, datatype, dest, tag, pimpl.comm] }])).1,
       testedTrace mpi log MpiOp.Send [count, datatype, dest, tag, pimpl.comm]) := by
  by_cases h : mpi.code log.length = mpi.MPI_SUCCESS
  · simp only [Intracomm.Send, test_ok mpi _ _ log h, h, if_true]
  · simp only [Intracomm.Send, test_error mpi _ _ log h, h, if_false]

theorem Recv_eq (mpi : Mpi) (pimpl : Impl) (count datatype source tag : Int) (log : List MpiCall) :
    Intracomm.Recv mpi pimpl count datatype source tag log =
      (if mpi.code log.length = mpi.MPI_SUCCESS then Except.ok ()
        else Except.error (Exception.new mpi (mpi.code log.length)
          (log ++ [{ op := MpiOp.Recv, args := [count, datatype, source, tag, pimpl.comm] }])).1,
       testedTrace mpi log MpiOp.Recv [count, datatype, source, tag, pimpl.comm]) := by
  by_cases h : mpi.code log.length = mpi.MPI_SUCCESS
  · simp only [Intracomm.Recv, test_ok mpi _ _ log h, h, if_true]
  · simp only [Intracomm.Recv, test_error mpi _ _ log h, h, if_false]

theorem RecvIgnore_eq (mpi : Mpi) (pimpl : Impl) (count datatype source tag : Int) (log : List MpiCall) :
    Intracomm.RecvIgnore mpi pimpl count datatype source tag log =
      (if mpi.code log.length = mpi.MPI_SUCCESS then Except.ok ()
        else Except.error (Exception.new mpi (mpi.code log.length)
          (log ++ [{ op := MpiOp.Recv, args := [count, datatype, source, tag, pimpl.comm] }])).1,
       testedTrace mpi log MpiOp.Recv [count, datatype, source, tag, pimpl.comm]) := by
  by_cases h : mpi.code log.length = mpi.MPI_SUCCESS
  · simp only [Intracomm.RecvIgnore, test_ok mpi _ _ log h, h, if_true]
  · simp only [Intracomm.RecvIgnore, test_error mpi _ _ log h, h, if_false]

theorem Bcast_eq (mpi : Mpi) (pimpl : Impl) (count datatype root : Int) (log : List MpiCall) :
    Intracomm.Bcast mpi pimpl count datatype root log =
      (if mpi.code log.length = mpi.MPI_SUCCESS then Except.ok ()
        else Except.error (Exception.new mpi (mpi.code log.length)
          (log ++ [{ op := MpiOp.Bcast, args := [count, datatype, root, pimpl.comm] }])).1,
       testedTrace mpi log MpiOp.Bcast [count, datatype, root, pimpl.comm]) := by
  by_cases h : mpi.code log.length = mpi.MPI_SUCCESS
  · simp only [Intracomm.Bcast, test_ok mpi _ _ log h, h, if_true]
  · simp only [Intracomm.Bcast, test_error mpi _ _ log h, h, if_false]

theorem Reduce_eq (mpi : Mpi) (pimpl : Impl) (count datatype op root : Int) (log : List MpiCall) :
    Intracomm.Reduce mpi pimpl count datatype op root log =
      (if mpi.code log.length = mpi.MPI_SUCCESS then Except.ok ()
        else Except.error (Exception.new mpi (mpi.code log.length)
          (log ++ [{ op := MpiOp.Reduce, args := [count, datatype, op, root, pimpl.comm] }])).1,
       testedTrace mpi log MpiOp.Reduce [count, datatype, op, root, pimpl.comm]) := by
  by_cases h : mpi.code log.length = mpi.MPI_SUCCESS
  · simp only [Intracomm.Reduce, test_ok mpi _ _ log h, h, if_true]
  · simp only [Intracomm.Reduce, test_error mpi _ _ log h, h, if_false]

theorem Allreduce_eq (mpi : Mpi) (pimpl : Impl) (count datatype op : Int) (log : List MpiCall) :
    Intracomm.Allreduce mpi pimpl count datatype op log =
      (if mpi.code log.length = mpi.MPI_SUCCESS then Except.ok ()
        else Except.error (Exception.new mpi (mpi.code log.length)
          (log ++ [{ op := MpiOp.Allreduce, args := [count, datatype, op, pimpl.comm] }])).1,
       testedTrace mpi log MpiOp.Allreduce [count, datatype, op, pimpl.comm]) := by
  by_cases h : mpi.code log.length = mpi.MPI_SUCCESS
  · simp only [Intracomm.Allreduce, test_ok mpi _ _ log h, h, if_true]
  · simp only [Intracomm.Allreduce, test_error mpi _ _ log h, h, if_false]

theorem Barrier_eq (mpi : Mpi) (pimpl : Impl) (log : List MpiCall) :
    Intracomm.Barrier mpi pimpl log =
      (if mpi.code log.length = mpi.MPI_SUCCESS then Except.ok ()
        else Except.error (Exception.new mpi (mpi.code log.length)
          (log ++ [{ op := MpiOp.Barrier, args := [pimpl.comm] }])).1,
       testedTrace mpi log MpiOp.Barrier [pimpl.comm]) := by
  by_cases h : mpi.code log.length = mpi.MPI_SUCCESS
  · simp only [Intracomm.Barrier, test_ok mpi _ _ log h, h, if_true]
  · simp only [Intracomm.Barrier, test_error mpi _ _ log h, h, if_false]

theorem Isend_eq (mpi : Mpi) (pimpl : Impl) (count datatype dest tag : Int) (log : List MpiCall) :
    Intracomm.Isend mpi pimpl count datatype dest tag log =
      (if mpi.code log.length = mpi.MPI_SUCCESS then Except.ok (mpi.out log.length)
        else Except.error (Exception.new mpi (mpi.code log.length)
          (log ++ [{ op := MpiOp.Isend, args := [count, datatype, dest, tag, pimpl.comm] }])).1,
       testedTrace mpi log MpiOp.Isend [count, datatype, dest, tag, pimpl.comm]) := by
  by_cases h : mpi.code log.length = mpi.MPI_SUCCESS
  · simp only [Intracomm.Isend, test_ok mpi _ _ log h, h, if_true]
  · simp only [Intracomm.Isend, test_error mpi _ _ log h, h, if_false]

theorem Irecv_eq (mpi : Mpi) (pimpl : Impl) (count datatype src tag : Int) (log : List MpiCall) :
    Intracomm.Irecv mpi pimpl count datatype src tag log =
      (if mpi.code log.length = mpi.MPI_SUCCESS then Except.ok (mpi.out log.length)
        else Except.error (Exception.new mpi (mpi.code log.length)
          (log ++ [{ op := MpiOp.Irecv, args := [count, datatype, src, tag, pimpl.comm] }])).1,
       testedTrace mpi log MpiOp.Irecv [count, datatype, src, tag, pimpl.comm]) := by
  by_cases h : mpi.code log.length = mpi.MPI_SUCCESS
  · simp only [Intracomm.Irecv, test_ok mpi _ _ log h, h, if_true]
  · simp only [Intracomm.Irecv, test_error mpi _ _ log h, h, if_false]

theorem ofComm_error (mpi : Mpi) (comm : Nat) (log : List MpiCall)
    (h : mpi.code log.length ≠ mpi.MPI_SUCCESS) :
    Intracomm.ofComm mpi comm log =
      (Except.error (Exception.new mpi (mpi.code log.length)
          (log ++ [{ op := MpiOp.Comm_rank, args := [(comm : Int)] }])).1,
        log ++ [{ op := MpiOp.Comm_rank, args := [(comm : Int)] },
          { op := MpiOp.Error_string, args := [mpi.code log.length] }]) := by
  simp only [Intracomm.ofComm, test_error mpi _ _ log h]
  simp [testedTrace, h]

theorem Detach_buffer_eq (mpi : Mpi) (log : List MpiCall) :
    Detach_buffer mpi log =
      (Except.ok (mpi.out log.length), log ++ [{ op := MpiOp.Buffer_detach, args := [] }]) :=
  rfl

/-- C17: a return code passed through `MADNESS_MPI_TEST` raises a
`SafeMPI::Exception` if and only if it differs from `MPI_SUCCESS`;
`Intracomm::Send` raises if and only if its call of `MPI_Send` returns a code
other than `MPI_SUCCESS`, and returns normally after that one call otherwise;
when the first tested call of the constructor `Intracomm(const MPI_Comm&)`
fails, the constructor raises and what follows that call in it, the call of
`MPI_Comm_size` and the building of the state, is not executed. -/
theorem tested_call_raises_iff (mpi : Mpi) (log : List MpiCall) :
    (∀ condition : List MpiCall → (Int × Int) × List MpiCall,
      (∃ e, (MADNESS_MPI_TEST mpi condition log).1 = Except.error e) ↔
        (condition log).1.1 ≠ mpi.MPI_SUCCESS) ∧
    (∀ (pimpl : Impl) (count datatype dest tag : Int),
      ((∃ e, (Intracomm.Send mpi pimpl count datatype dest tag log).1 = Except.error e) ↔
        mpi.code log.length ≠ mpi.MPI_SUCCESS) ∧
      (mpi.code log.length = mpi.MPI_SUCCESS →
        Intracomm.Send mpi pimpl count datatype dest tag log =
          (Except.ok (),
            log ++ [{ op := MpiOp.Send, args := [count, datatype, dest, tag, pimpl.comm] }]))) ∧
    (∀ comm : Nat, mpi.code log.length ≠ mpi.MPI_SUCCESS →
      (∃ e, (Intracomm.ofComm mpi comm log).1 = Except.error e) ∧
      (Intracomm.ofComm mpi comm log).2 =
        log ++ [{ op := MpiOp.Comm_rank, args := [(comm : Int)] },
          { op := MpiOp.Error_string, args := [mpi.code log.length] }]) := by
  refine ⟨fun condition => test_raises_iff mpi condition log, ?_, ?_⟩
  · intro pimpl count datatype dest tag
    rw [Send_eq]
    by_cases h : mpi.code log.length = mpi.MPI_SUCCESS
    · simp [h, testedTrace]
    · simp [h]
  · intro comm h
    rw [ofComm_error mpi comm log h]
    exact ⟨⟨_, rfl⟩, rfl⟩

/-- C17 (witness): with a transport whose calls return the code 1,
`Intracomm::Send` raises; with a transport whose calls return `MPI_SUCCESS`
it returns normally after one call of `MPI_Send`. -/
theorem tested_call_raises_iff_witness :
    (∃ e, (Intracomm.Send (constMpi 1) (Impl.new 0 0 2) 8 1 1 1000 []).1 = Except.error e) ∧
      Intracomm.Send (constMpi 0) (Impl.new 0 0 2) 8 1 1 1000 [] =
        (Except.ok (), [] ++ [{ op := MpiOp.Send, args := [8, 1, 1, 1000, (Impl.new 0 0 2).comm] }]) :=
  ⟨((tested_call_raises_iff (constMpi 1) []).2.1 (Impl.new 0 0 2) 8 1 1 1000).1.mpr (by decide),
    ((tested_call_raises_iff (constMpi 0) []).2.1 (Impl.new 0 0 2) 8 1 1 1000).2 rfl⟩

/-- C19: one call of `Isend`, `Irecv`, `Send`, `Recv` (either overload),
`Bcast`, `Reduce`, `Allreduce` or `Barrier` adds to the calls of the transport
exactly one call of the underlying operation, followed only by the lookup of
the error string when that call failed: the operation is invoked once,
whether it succeeds or fails. -/
theorem wrappers_call_once (mpi : Mpi) (pimpl : Impl) (log : List MpiCall) :
    (∀ count datatype dest tag : Int,
      (Intracomm.Isend mpi pimpl count datatype dest tag log).2 =
        testedTrace mpi log MpiOp.Isend [count, datatype, dest, tag, pimpl.comm]) ∧
    (∀ count datatype src tag : Int,
      (Intracomm.Irecv mpi pimpl count datatype src tag log).2 =
        testedTrace mpi log MpiOp.Irecv [count, datatype, src, tag, pimpl.comm]) ∧
    (∀ count datatype dest tag : Int,
      (Intracomm.Send mpi pimpl count datatype dest tag log).2 =
        testedTrace mpi log MpiOp.Send [count, datatype, dest, tag, pimpl.comm]) ∧
    (∀ count datatype source tag : Int,
      (Intracomm.Recv mpi pimpl count datatype source tag log).2 =
        testedTrace mpi log MpiOp.Recv [count, datatype, source, tag, pimpl.comm]) ∧
    (∀ count datatype source tag : Int,
      (Intracomm.RecvIgnore mpi pimpl count datatype source tag log).2 =
        testedTrace mpi log MpiOp.Recv [count, datatype, source, tag, pimpl.comm]) ∧
    (∀ count datatype root : Int,
      (Intracomm.Bcast mpi pimpl count datatype root log).2 =
        testedTrace mpi log MpiOp.Bcast [count, datatype, root, pimpl.comm]) ∧
    (∀ count datatype op root : Int,
      (Intracomm.Reduce mpi pimpl count datatype op root log).2 =
        testedTrace mpi log MpiOp.Reduce [count, datatype, op, root, pimpl.comm]) ∧
    (∀ count datatype op : Int,
      (Intracomm.Allreduce mpi pimpl count datatype op log).2 =
        testedTrace mpi log MpiOp.Allreduce [count, datatype, op, pimpl.comm]) ∧
    (Intracomm.Barrier mpi pimpl log).2 = testedTrace mpi log MpiOp.Barrier [pimpl.comm] ∧
    (∀ (op : MpiOp) (args : List Int), op ≠ MpiOp.Error_string →
      callsOf op (testedTrace mpi log op args) = callsOf op log + 1) := by
  refine ⟨?_, ?_, ?_, ?_, ?_, ?_, ?_, ?_, ?_, callsOf_testedTrace mpi log⟩
  · intro a b c d; rw [Isend_eq]
  · intro a b c d; rw [Irecv_eq]
  · intro a b c d; rw [Send_eq]
  · intro a b c d; rw [Recv_eq]
  · intro a b c d; rw [RecvIgnore_eq]
  · intro a b c; rw [Bcast_eq]
  · intro a b c d; rw [Reduce_eq]
  · intro a b c; rw [Allreduce_eq]
  · rw [Barrier_eq]

/-- C19 (witness): a failing `Send` leaves one call of `MPI_Send` and the
lookup of the error string; a `Barrier` that succeeds leaves one call of
`MPI_Barrier`. -/
theorem wrappers_call_once_witness :
    (Intracomm.Send (constMpi 1) (Impl.new 0 0 2) 8 1 1 1000 []).2 =
        [{ op := MpiOp.Send, args := [8, 1, 1, 1000, 0] },
          { op := MpiOp.Error_string, args := [1] }] ∧
      (Intracomm.Barrier (constMpi 0) (Impl.new 0 0 2) []).2 =
        [{ op := MpiOp.Barrier, args := [0] }] ∧
      callsOf MpiOp.Send (testedTrace (constMpi 1) [] MpiOp.Send [8, 1, 1, 1000, 0]) =
        callsOf MpiOp.Send [] + 1 :=
  have h := wrappers_call_once (constMpi 1) (Impl.new 0 0 2) []
  ⟨(h.2.2.1 8 1 1 1000).trans (by decide),
    (wrappers_call_once (constMpi 0) (Impl.new 0 0 2) []).2.2.2.2.2.2.2.2.1.trans (by decide),
    h.2.2.2.2.2.2.2.2.2 MpiOp.Send [8, 1, 1, 1000, 0] (by decide)⟩

end SafeMPI

namespace SafeMPI

/-! ## Equality of communicators and default tag -/

/-- C21: `a == b` is true if and only if the comparison call of the transport
returns `MPI_SUCCESS` and reports `MPI_IDENT`; the call made and the result
depend on `a` and `b` only through their communicator handles; so a
comparison that succeeds with another result, such as that of two congruent
communicators, gives false. -/
theorem comm_equality_iff_ident (mpi : Mpi) (a b : Impl) (log : List MpiCall) :
    ((Intracomm.eq mpi a b log).1 = Except.ok true ↔
      (mpi.code log.length = mpi.MPI_SUCCESS ∧ mpi.out log.length = mpi.MPI_IDENT)) ∧
    ((Intracomm.eq mpi a b log).1 = Except.ok false ↔
      ¬ (mpi.code log.length = mpi.MPI_SUCCESS ∧ mpi.out log.length = mpi.MPI_IDENT)) ∧
    (Intracomm.eq mpi a b log).2 =
      log ++ [{ op := MpiOp.Comm_compare, args := [(a.comm : Int), (b.comm : Int)] }] ∧
    (∀ a1 b1 : Impl, a1.comm = a.comm → b1.comm = b.comm →
      Intracomm.eq mpi a1 b1 log = Intracomm.eq mpi a b log) ∧
    (mpi.code log.length = mpi.MPI_SUCCESS → mpi.out log.length ≠ mpi.MPI_IDENT →
      (Intracomm.eq mpi a b log).1 = Except.ok false) := by
  refine ⟨?_, ?_, rfl, ?_, ?_⟩
  · simp [Intracomm.eq, Mpi.call]
  · by_cases h1 : mpi.code log.length = mpi.MPI_SUCCESS <;>
      by_cases h2 : mpi.out log.length = mpi.MPI_IDENT <;>
      simp [Intracomm.eq, Mpi.call, h1, h2]
  · intro a1 b1 ha hb
    simp [Intracomm.eq, Mpi.call, ha, hb]
  · intro h1 h2
    simp [Intracomm.eq, Mpi.call, h1, h2]

/-- C21 (witness): two handles of the same communicator with different tag
counters compare equal when the transport reports identity, and a comparison
that succeeds with another result gives false. -/
theorem comm_equality_iff_ident_witness :
    (Intracomm.eq (constMpi 0) (Impl.new 3 0 2) { Impl.new 3 0 2 with utag := 2000 } []).1 =
        Except.ok true ∧
      (Intracomm.eq congruentMpi (Impl.new 3 0 2) (Impl.new 4 0 2) []).1 = Except.ok false :=
  ⟨(comm_equality_iff_ident (constMpi 0) (Impl.new 3 0 2)
      { Impl.new 3 0 2 with utag := 2000 } []).1.mpr ⟨rfl, rfl⟩,
    (comm_equality_iff_ident congruentMpi (Impl.new 3 0 2) (Impl.new 4 0 2) []).2.2.2.2
      rfl (by decide)⟩

/-- C23 (the code departs from its documentation): the single-element `Send`
of an 8-byte datum to process 1, called without a tag, passes the tag 1000 to
the transport, which is not the 1001 that the comment of the overload states
as its default, and 1001 is the value of `MPIAR_TAG`. -/
theorem send_datum_default_tag_is_1000 :
    (Intracomm.SendDatum (constMpi 0) (Impl.new 0 0 2) 1 8 1 none []).2 =
      [{ op := MpiOp.Send, args := [8, 1, 1, 1000, 0] }] ∧
    (1000 : Int) ≠ 1001 ∧ MPIAR_TAG = 1001 := by
  decide

/-- Default tag of the single-element `Send`, on every transport, handle,
datum size and destination: called without a tag it sends with
the tag `DEFAULT_SEND_RECV_TAG`, which is 1000, the default of the
single-element `Recv` as well, and differs from `MPIAR_TAG`, which is 1001; it
passes the datum as `sizeof(T)` elements of type `MPI_BYTE` to the given
destination, and a tag given in the call is used instead of the default. -/
theorem send_datum_default_tag (mpi : Mpi) (pimpl : Impl) (MPI_BYTE sizeofT dest : Int)
    (log : List MpiCall) :
    Intracomm.SendDatum mpi pimpl MPI_BYTE sizeofT dest none log =
      Intracomm.Send mpi pimpl sizeofT MPI_BYTE dest 1000 log ∧
    (Intracomm.SendDatum mpi pimpl MPI_BYTE sizeofT dest none log).2 =
      testedTrace mpi log MpiOp.Send [sizeofT, MPI_BYTE, dest, 1000, pimpl.comm] ∧
    (∀ tag : Int, Intracomm.SendDatum mpi pimpl MPI_BYTE sizeofT dest (some tag) log =
      Intracomm.Send mpi pimpl sizeofT MPI_BYTE dest tag log) ∧
    (∀ src : Int, Intracomm.RecvDatum mpi pimpl MPI_BYTE sizeofT src none log =
      Intracomm.RecvIgnore mpi pimpl sizeofT MPI_BYTE src 1000 log) ∧
    DEFAULT_SEND_RECV_TAG = 1000 ∧ DEFAULT_SEND_RECV_TAG ≠ MPIAR_TAG := by
  refine ⟨rfl, ?_, fun _ => rfl, fun _ => rfl, rfl, by decide⟩
  show (Intracomm.Send mpi pimpl sizeofT MPI_BYTE dest 1000 log).2 = _
  rw [Send_eq]

end SafeMPI

namespace madness

/-! ## Stolen and re-admitted tasks -/

/-- C27: for every ready-queue content and every `n`, when `steal(n)` returns,
the counter of the stealing queue and of every other queue is what it was, and
`size()` returns what it returned before; `steal` returns on every ready-queue
it can visit without dereferencing a null pointer. -/
theorem steal_keeps_count (sys : System) (q : Ptr) (nsteal : Int) :
    (stealDefined sys sys.ready = true →
      ∃ v sys1, WorldTaskQueue.steal sys q nsteal = some (v, sys1)) ∧
    ∀ v sys1, WorldTaskQueue.steal sys q nsteal = some (v, sys1) →
      (sys1.queues q).nregistered = (sys.queues q).nregistered ∧
      WorldTaskQueue.size sys1 q = WorldTaskQueue.size sys q ∧
      ∀ q1, WorldTaskQueue.size sys1 q1 = WorldTaskQueue.size sys q1 := by
  refine ⟨fun h => ⟨_, _, steal_eq sys q nsteal h⟩, ?_⟩
  intro v sys1 h
  have hq := steal_queues sys q nsteal v sys1 h
  refine ⟨by rw [hq], by simp [WorldTaskQueue.size, hq], fun q1 => by
    simp [WorldTaskQueue.size, hq]⟩

/-- C27 (witness): in scenario 5 the queue of W counts five tasks before
`steal(3)` and five after it, although the five tasks were stolen. -/
theorem steal_keeps_count_witness :
    (∃ v sys1, WorldTaskQueue.steal scenarioWV 0 3 = some (v, sys1)) ∧
      WorldTaskQueue.size
        { scenarioWV with ready := clearEligible scenarioWV 0 scenarioWV.ready } 0 =
        WorldTaskQueue.size scenarioWV 0 ∧
      WorldTaskQueue.size scenarioWV 0 = 5 :=
  have h : WorldTaskQueue.steal scenarioWV 0 3 =
      some ([1, 2, 3, 4, 5],
        { scenarioWV with ready := clearEligible scenarioWV 0 scenarioWV.ready }) := rfl
  ⟨(steal_keeps_count scenarioWV 0 3).1 (by decide),
    ((steal_keeps_count scenarioWV 0 3).2 _ _ h).2.1, by decide⟩

/-- C28: for a task without prerequisites, two calls of `add` with it on the
same queue raise the counter of the queue by two and append the task to the
ready-queue of the pool twice; the one notification sent when the task is
destroyed lowers the counter by one, which leaves it one above its initial
value. -/
theorem add_twice_counts_twice (sys : System) (q t : Ptr) (h : (sys.tasks t).ndep = 0) :
    ((WorldTaskQueue.add (WorldTaskQueue.add sys q t) q t).queues q).nregistered =
      (sys.queues q).nregistered + 2 ∧
    (WorldTaskQueue.add (WorldTaskQueue.add sys q t) q t).ready =
      sys.ready ++ [Slot.task t, Slot.task t] ∧
    ((TaskInterface.destroy (WorldTaskQueue.add (WorldTaskQueue.add sys q t) q t) t).queues
      q).nregistered = (sys.queues q).nregistered + 1 := by
  simp only [TaskInterface.ndep] at h
  have h1 : ((WorldTaskQueue.add sys q t).tasks t).ndepend = 0 := by
    rw [add_eq, if_pos h]
    simp [TaskInterface.set_info, h]
  have hready1 : (WorldTaskQueue.add sys q t).ready = sys.ready ++ [Slot.task t] := by
    rw [add_eq, if_pos h]
  have hready2 : (WorldTaskQueue.add (WorldTaskQueue.add sys q t) q t).ready =
      sys.ready ++ [Slot.task t, Slot.task t] := by
    rw [add_eq (WorldTaskQueue.add sys q t), if_pos h1]
    simp [hready1]
  have hcount : ((WorldTaskQueue.add (WorldTaskQueue.add sys q t) q t).queues q).nregistered =
      (sys.queues q).nregistered + 2 := by
    rw [add_nregistered, add_nregistered]
    ring
  refine ⟨hcount, hready2, ?_⟩
  have hc := add_completion (WorldTaskQueue.add sys q t) q t
  simp only [TaskInterface.destroy, hc, notify_queues]
  simp only [Function.update_same]
  rw [hcount]
  ring

/-- C28 (witness): the task at address 3 of a fresh store, admitted twice to
the queue at address 0, is queued twice and counted twice, and its destruction
leaves a count of one. -/
theorem add_twice_counts_twice_witness :
    ((WorldTaskQueue.add (WorldTaskQueue.add freshSystem 0 3) 0 3).queues 0).nregistered =
        (freshSystem.queues 0).nregistered + 2 ∧
      (WorldTaskQueue.add (WorldTaskQueue.add freshSystem 0 3) 0 3).ready =
        freshSystem.ready ++ [Slot.task 3, Slot.task 3] ∧
      ((TaskInterface.destroy (WorldTaskQueue.add (WorldTaskQueue.add freshSystem 0 3) 0 3)
        3).queues 0).nregistered = (freshSystem.queues 0).nregistered + 1 :=
  add_twice_counts_twice freshSystem 0 3 rfl

/-! ## Running a task -/

theorem run_of_admitted {E : Type} (t : TaskInterface)
    (body : World → TaskThreadEnv → Except E Unit) (env : TaskThreadEnv) (w : World) (c : Ptr)
    (hw : t.world = some w) (hc : t.completion = some c) :
    t.run body env =
      (match body w env with
        | Except.error e => Except.error (RunFailure.raised e)
        | Except.ok u => Except.ok u,
       [(w, env)]) := by
  simp [TaskInterface.run, MADNESS_ASSERT, hw, hc]

theorem run_of_null {E : Type} (t : TaskInterface)
    (body : World → TaskThreadEnv → Except E Unit) (env : TaskThreadEnv)
    (h : t.world = none ∨ t.completion = none) :
    t.run body env =
      (Except.error (RunFailure.assertion "MADNESS ASSERTION FAILED"), []) := by
  cases hw : t.world with
  | none => simp [TaskInterface.run, MADNESS_ASSERT, hw]
  | some w =>
    have hc : t.completion = none := by
      rcases h with h | h
      · rw [hw] at h; exact absurd h (by simp)
      · exact h
    simp [TaskInterface.run, MADNESS_ASSERT, hw, hc]

theorem runWorldEnv_raises (w : World) (env : TaskThreadEnv) :
    ∃ e, TaskInterface.runWorldEnv w env = Except.error e := by
  unfold TaskInterface.runWorldEnv TaskInterface.runWorld
  split
  · exact ⟨_, rfl⟩
  · exact ⟨_, rfl⟩

/-- C22: whatever the body `run(world, env)` of the task, `TaskInterface::run(env)`
fails one of its own assertions if and only if the world or the completion
sink of the task is null, and then it does not invoke the body; it returns if
and only if both are set and the body returns; a task as
built by either constructor, never passed to `add`, has both null; for a task
admitted by `add` both are set, no assertion fails, and `run(env)` invokes
`run(world, env)` exactly once, with the world of the admitting queue, and
ends as that call ends: it raises what the body raises, as the default body of
the base class does, and returns when the body returns. -/
theorem run_asserts_iff_null {E : Type} (body : World → TaskThreadEnv → Except E Unit)
    (env : TaskThreadEnv) :
    (∀ t : TaskInterface,
      ((∃ msg, (t.run body env).1 = Except.error (RunFailure.assertion msg)) ↔
        (t.world = none ∨ t.completion = none)) ∧
      ((t.world = none ∨ t.completion = none) → (t.run body env).2 = []) ∧
      ((t.run body env).1 = Except.ok () ↔
        ∃ w, t.world = some w ∧ t.completion ≠ none ∧ body w env = Except.ok ())) ∧
    (∀ (n : Int) (a : Bool),
      (TaskInterface.new n a).world = none ∧ (TaskInterface.new n a).completion = none ∧
      ∃ msg, ((TaskInterface.new n a).run body env).1 =
        Except.error (RunFailure.assertion msg)) ∧
    (∀ a : Bool,
      (TaskInterface.newAttr a).world = none ∧ (TaskInterface.newAttr a).completion = none ∧
      ∃ msg, ((TaskInterface.newAttr a).run body env).1 =
        Except.error (RunFailure.assertion msg)) ∧
    (∀ (sys : System) (q p : Ptr),
      ((WorldTaskQueue.add sys q p).tasks p).world = some (sys.queues q).world ∧
      ((WorldTaskQueue.add sys q p).tasks p).completion = some q ∧
      (((WorldTaskQueue.add sys q p).tasks p).run body env).2 =
        [((sys.queues q).world, env)] ∧
      (∀ e, body (sys.queues q).world env = Except.error e →
        (((WorldTaskQueue.add sys q p).tasks p).run body env).1 =
          Except.error (RunFailure.raised e)) ∧
      (body (sys.queues q).world env = Except.ok () →
        (((WorldTaskQueue.add sys q p).tasks p).run body env).1 = Except.ok ())) ∧
    (∀ (sys : System) (q p : Ptr),
      ∃ e, (((WorldTaskQueue.add sys q p).tasks p).run TaskInterface.runWorldEnv env).1 =
        Except.error (RunFailure.raised e)) := by
  have hadd : ∀ (sys : System) (q p : Ptr),
      ((WorldTaskQueue.add sys q p).tasks p).world = some (sys.queues q).world := by
    intro sys q p
    rw [add_eq]
    split <;> simp [TaskInterface.set_info]
  refine ⟨?_, ?_, ?_, ?_, ?_⟩
  · intro t
    refine ⟨⟨?_, fun h => ⟨_, by rw [run_of_null t body env h]⟩⟩,
      fun h => by rw [run_of_null t body env h], ?_, ?_⟩
    · rintro ⟨msg, hmsg⟩
      by_contra hnn
      rw [not_or] at hnn
      obtain ⟨w, hw⟩ := Option.ne_none_iff_exists'.mp hnn.1
      obtain ⟨c, hc⟩ := Option.ne_none_iff_exists'.mp hnn.2
      rw [run_of_admitted t body env w c hw hc] at hmsg
      cases hb : body w env <;> simp [hb] at hmsg
    · intro hok
      by_cases hnn : t.world = none ∨ t.completion = none
      · rw [run_of_null t body env hnn] at hok
        simp at hok
      · rw [not_or] at hnn
        obtain ⟨w, hw⟩ := Option.ne_none_iff_exists'.mp hnn.1
        obtain ⟨c, hc⟩ := Option.ne_none_iff_exists'.mp hnn.2
        rw [run_of_admitted t body env w c hw hc] at hok
        refine ⟨w, hw, hnn.2, ?_⟩
        cases hb : body w env <;> simp [hb] at hok
        rfl
    · rintro ⟨w, hw, hcn, hb⟩
      obtain ⟨c, hc⟩ := Option.ne_none_iff_exists'.mp hcn
      rw [run_of_admitted t body env w c hw hc, hb]
  · intro n a
    exact ⟨rfl, rfl, _, by rw [run_of_null _ body env (Or.inl rfl)]⟩
  · intro a
    exact ⟨rfl, rfl, _, by rw [run_of_null _ body env (Or.inl rfl)]⟩
  · intro sys q p
    have hrun := run_of_admitted _ body env _ q (hadd sys q p) (add_completion sys q p)
    refine ⟨hadd sys q p, add_completion sys q p, by rw [hrun], ?_, ?_⟩
    · intro e he
      rw [hrun, he]
    · intro he
      rw [hrun, he]
  · intro sys q p
    obtain ⟨e, he⟩ := runWorldEnv_raises (sys.queues q).world env
    refine ⟨e, ?_⟩
    rw [run_of_admitted _ TaskInterface.runWorldEnv env _ q (hadd sys q p)
      (add_completion sys q p), he]

/-- C22 (witness): the task at address 3 of a fresh store, whose class
overrides no `run`, fails the assertion when run before admission, without
invoking the body; after admission to the queue at address 0 it invokes
`run(world, env)` once, and ends with the failure raised by the default
body. -/
theorem run_asserts_iff_null_witness :
    (∃ msg, ((freshSystem.tasks 3).run TaskInterface.runWorldEnv { nthread := 1, id := 0 }).1 =
        Except.error (RunFailure.assertion msg)) ∧
      ((freshSystem.tasks 3).run TaskInterface.runWorldEnv { nthread := 1, id := 0 }).2 = [] ∧
      (((WorldTaskQueue.add freshSystem 0 3).tasks 3).run TaskInterface.runWorldEnv
        { nthread := 1, id := 0 }).2 = [((freshSystem.queues 0).world, { nthread := 1, id := 0 })] ∧
      ∃ e, (((WorldTaskQueue.add freshSystem 0 3).tasks 3).run TaskInterface.runWorldEnv
        { nthread := 1, id := 0 }).1 = Except.error (RunFailure.raised e) :=
  have h := run_asserts_iff_null TaskInterface.runWorldEnv { nthread := 1, id := 0 }
  ⟨((h.1 (freshSystem.tasks 3)).1).mpr (Or.inl rfl), (h.1 (freshSystem.tasks 3)).2.1 (Or.inl rfl),
    (h.2.2.2.1 freshSystem 0 3).2.2.1, h.2.2.2.2 freshSystem 0 3⟩

/-! ## Command line of `startup` -/

/-- C30 (behaviour of the code): with the two arguments `prog -dn`, so that
`argc` is 2, the command-line loop reads `argv[2]`, which is not below `argc`
and is the null pointer, to convert it with `atoi`; the iteration has no
defined behaviour. -/
theorem startup_reads_past_last_argument :
    startupCommandLine atoiDecimal ["prog", "-dn"] 0 =
      ([StartupEvent.read 1, StartupEvent.read 1, StartupEvent.read 1, StartupEvent.read 2],
        false) ∧
    ¬ (2 < ["prog", "-dn"].length) := by
  decide

end madness

namespace elem

/-! ## Redheffer matrix -/

theorem RedhefferEntry_entries {T : Type} [Zero T] [One T] (j : Nat) (R : Matrix T)
    (i i1 j1 : Nat) :
    (RedhefferEntry j R i).entries i1 j1 =
      if i1 = i ∧ j1 = j then (if j = 0 ∨ (i + 1) ∣ (j + 1) then 1 else 0)
      else R.entries i1 j1 := by
  unfold RedhefferEntry
  by_cases h : j = 0 ∨ (j + 1) % (i + 1) = 0
  · have h2 : j = 0 ∨ (i + 1) ∣ (j + 1) := by
      rcases h with h | h
      · exact Or.inl h
      · exact Or.inr (Nat.dvd_of_mod_eq_zero h)
    simp [h, h2, Matrix.Set]
  · have h2 : ¬ (j = 0 ∨ (i + 1) ∣ (j + 1)) := by
      intro h3
      apply h
      rcases h3 with h3 | h3
      · exact Or.inl h3
      · exact Or.inr (Nat.mod_eq_zero_of_dvd h3)
    simp [h, h2, Matrix.Set]

theorem RedhefferEntry_dims {T : Type} [Zero T] [One T] (j : Nat) (R : Matrix T) (i : Nat) :
    (RedhefferEntry j R i).height = R.height ∧ (RedhefferEntry j R i).width = R.width := by
  unfold RedhefferEntry
  split <;> exact ⟨rfl, rfl⟩

theorem RedhefferColumn_spec {T : Type} [Zero T] [One T] (j : Nat) (R : Matrix T) (m : Nat) :
    ((List.range m).foldl (RedhefferEntry j) R).height = R.height ∧
    ((List.range m).foldl (RedhefferEntry j) R).width = R.width ∧
    ∀ i1 j1, ((List.range m).foldl (RedhefferEntry j) R).entries i1 j1 =
      if i1 < m ∧ j1 = j then (if j = 0 ∨ (i1 + 1) ∣ (j + 1) then 1 else 0)
      else R.entries i1 j1 := by
  induction m with
  | zero => simp
  | succ m ih =>
    obtain ⟨hh, hw, he⟩ := ih
    rw [List.range_succ, List.foldl_append]
    simp only [List.foldl_cons, List.foldl_nil]
    refine ⟨by rw [(RedhefferEntry_dims j _ m).1, hh],
      by rw [(RedhefferEntry_dims j _ m).2, hw], ?_⟩
    intro i1 j1
    rw [RedhefferEntry_entries, he]
    by_cases hj : j1 = j
    · by_cases hi : i1 = m
      · subst hi; simp [hj]
      · have h1 : (i1 < m + 1) ↔ (i1 < m) := by omega
        simp [hj, hi, h1]
    · simp [hj]

theorem Redheffer_spec {T : Type} [Zero T] [One T] (n : Nat) (R : Matrix T) (m : Nat) :
    ((List.range m).foldl (RedhefferColumn n) R).height = R.height ∧
    ((List.range m).foldl (RedhefferColumn n) R).width = R.width ∧
    ∀ i1 j1, ((List.range m).foldl (RedhefferColumn n) R).entries i1 j1 =
      if i1 < n ∧ j1 < m then (if j1 = 0 ∨ (i1 + 1) ∣ (j1 + 1) then 1 else 0)
      else R.entries i1 j1 := by
  induction m with
  | zero => simp
  | succ m ih =>
    obtain ⟨hh, hw, he⟩ := ih
    rw [List.range_succ, List.foldl_append]
    simp only [List.foldl_cons, List.foldl_nil]
    obtain ⟨ch, cw, ce⟩ := RedhefferColumn_spec m ((List.range m).foldl (RedhefferColumn n) R) n
    have hce : ∀ i1 j1,
        (RedhefferColumn n ((List.range m).foldl (RedhefferColumn n) R) m).entries i1 j1 =
          if i1 < n ∧ j1 = m then (if m = 0 ∨ (i1 + 1) ∣ (m + 1) then 1 else 0)
          else ((List.range m).foldl (RedhefferColumn n) R).entries i1 j1 := ce
    refine ⟨ch.trans hh, cw.trans hw, ?_⟩
    intro i1 j1
    rw [hce, he]
    by_cases hi : i1 < n
    · by_cases hj : j1 = m
      · subst hj; simp [hi]
      · have h1 : (j1 < m + 1) ↔ (j1 < m) := by omega
        simp [hi, hj, h1]
    · simp [hi]

/-- C29: for every `n`, `Redheffer(R, n)` leaves `R` with `n` rows and `n`
columns and, for all `i, j < n`, the entry `(i, j)` equal to 1 when `j = 0` or
`i + 1` divides `j + 1`, and to 0 otherwise; so the first row, the first
column and the diagonal hold ones, and the entries below the diagonal outside
the first column hold zeros. -/
theorem Redheffer_entries {T : Type} [Zero T] [One T] (R : Matrix T) (n : Nat) :
    (Redheffer R n).height = n ∧ (Redheffer R n).width = n ∧
    (∀ i j, i < n → j < n →
      (Redheffer R n).entries i j = if j = 0 ∨ (i + 1) ∣ (j + 1) then 1 else 0) ∧
    (∀ j, j < n → (Redheffer R n).entries 0 j = 1) ∧
    (∀ i, i < n → (Redheffer R n).entries i 0 = 1) ∧
    (∀ i, i < n → (Redheffer R n).entries i i = 1) ∧
    (∀ i j, i < n → 0 < j → j < i → (Redheffer R n).entries i j = 0) := by
  obtain ⟨hh, hw, he⟩ := Redheffer_spec n (R.Resize n n) n
  have hent : ∀ i j, i < n → j < n →
      (Redheffer R n).entries i j = if j = 0 ∨ (i + 1) ∣ (j + 1) then 1 else 0 := by
    intro i j hi hj
    unfold Redheffer
    rw [he]
    simp [hi, hj]
  refine ⟨by unfold Redheffer; rw [hh]; rfl, by unfold Redheffer; rw [hw]; rfl, hent,
    ?_, ?_, ?_, ?_⟩
  · intro j hj
    have h0 : 0 < n := by omega
    rw [hent 0 j h0 hj]
    simp
  · intro i hi
    rw [hent i 0 hi (by omega)]
    simp
  · intro i hi
    rw [hent i i hi hi]
    simp
  · intro i j hi hj hji
    rw [hent i j hi (by omega)]
    have h1 : ¬ (i + 1) ∣ (j + 1) := by
      intro hd
      have := Nat.le_of_dvd (by omega) hd
      omega
    have h2 : j ≠ 0 := by omega
    simp [h1, h2]

/-- C29 (witness): the matrix of order 4 has a one at row 1, column 3 (2
divides 4) and a zero at row 2, column 1. -/
theorem Redheffer_entries_witness :
    (Redheffer emptyMatrix 4).entries 1 3 = (if 3 = 0 ∨ (1 + 1) ∣ (3 + 1) then 1 else 0) ∧
      (Redheffer emptyMatrix 4).entries 2 1 = 0 ∧
      (Redheffer emptyMatrix 4).height = 4 :=
  have h := Redheffer_entries emptyMatrix 4
  ⟨h.2.2.1 1 3 (by decide) (by decide), h.2.2.2.2.2.2 2 1 (by decide) (by decide) (by decide),
    h.1⟩

end elem

namespace pmrrr

/-! ## The eigenvalue routine `odsq2` -/

theorem shift_eq_root {K : Type} [LinearOrderedField K] (b c t R : K)
    (ht : 0 < t) (hR : 0 ≤ R) (hR2 : R * R = t * t + c * b) :
    c * (b / (t + R)) = R - t := by
  have hD : t + R ≠ 0 := by positivity
  have h1 : c * (b / (t + R)) * (t + R) = c * b := by
    field_simp
  have h2 : (R - t) * (t + R) = c * b := by
    linear_combination hR2
  exact mul_right_cancel₀ hD (h1.trans h2.symm)

theorem root_low {K : Type} [LinearOrderedField K] (sqrt : K → K)
    (hsqrt : ∀ x, 0 ≤ x → 0 ≤ sqrt x ∧ sqrt x * sqrt x = x) (b c t : K)
    (ht : 0 < t) (hb : 0 ≤ b) (hc : 0 ≤ c) :
    0 ≤ t * sqrt (c * (b / t) / t + 1) ∧
    t * sqrt (c * (b / t) / t + 1) * (t * sqrt (c * (b / t) / t + 1)) = t * t + c * b := by
  have hx : 0 ≤ c * (b / t) / t + 1 := by positivity
  obtain ⟨h0, h1⟩ := hsqrt _ hx
  refine ⟨by positivity, ?_⟩
  have : t * sqrt (c * (b / t) / t + 1) * (t * sqrt (c * (b / t) / t + 1)) =
      t * t * (sqrt (c * (b / t) / t + 1) * sqrt (c * (b / t) / t + 1)) := by ring
  rw [this, h1]
  field_simp
  ring

theorem root_high {K : Type} [LinearOrderedField K] (sqrt : K → K)
    (hsqrt : ∀ x, 0 ≤ x → 0 ≤ sqrt x ∧ sqrt x * sqrt x = x) (b c t : K)
    (ht : 0 < t) (hb : 0 ≤ b) (hc : 0 ≤ c) :
    0 ≤ sqrt t * sqrt (t + c * (b / t)) ∧
    sqrt t * sqrt (t + c * (b / t)) * (sqrt t * sqrt (t + c * (b / t))) = t * t + c * b := by
  have hx : 0 ≤ t + c * (b / t) := by positivity
  obtain ⟨h0, h1⟩ := hsqrt _ hx
  obtain ⟨h2, h3⟩ := hsqrt t (le_of_lt ht)
  refine ⟨mul_nonneg h2 h0, ?_⟩
  have : sqrt t * sqrt (t + c * (b / t)) * (sqrt t * sqrt (t + c * (b / t))) =
      (sqrt t * sqrt t) * (sqrt (t + c * (b / t)) * sqrt (t + c * (b / t))) := by ring
  rw [this, h1, h3]
  field_simp

theorem shiftLow_eq {K : Type} [LinearOrderedField K] (sqrt : K → K)
    (hsqrt : ∀ x, 0 ≤ x → 0 ≤ sqrt x ∧ sqrt x * sqrt x = x) (b c t : K)
    (ht : 0 < t) (hb : 0 ≤ b) (hc : 0 ≤ c) :
    odsq2ShiftLow sqrt c b t (c * (b / t)) = t * sqrt (c * (b / t) / t + 1) - t := by
  obtain ⟨h0, h1⟩ := root_low sqrt hsqrt b c t ht hb hc
  rw [← shift_eq_root b c t _ ht h0 h1]
  unfold odsq2ShiftLow
  congr 2
  ring

theorem shiftHigh_eq {K : Type} [LinearOrderedField K] (sqrt : K → K)
    (hsqrt : ∀ x, 0 ≤ x → 0 ≤ sqrt x ∧ sqrt x * sqrt x = x) (b c t : K)
    (ht : 0 < t) (hb : 0 ≤ b) (hc : 0 ≤ c) :
    odsq2ShiftHigh sqrt c b t (c * (b / t)) = sqrt t * sqrt (t + c * (b / t)) - t := by
  obtain ⟨h0, h1⟩ := root_high sqrt hsqrt b c t ht hb hc
  rw [← shift_eq_root b c t _ ht h0 h1]
  rfl

theorem shift_branches_agree {K : Type} [LinearOrderedField K] (sqrt : K → K)
    (hsqrt : ∀ x, 0 ≤ x → 0 ≤ sqrt x ∧ sqrt x * sqrt x = x) (b c t : K)
    (ht : 0 < t) (hb : 0 ≤ b) (hc : 0 ≤ c) :
    odsq2ShiftLow sqrt c b t (c * (b / t)) = odsq2ShiftHigh sqrt c b t (c * (b / t)) := by
  rw [shiftLow_eq sqrt hsqrt b c t ht hb hc, shiftHigh_eq sqrt hsqrt b c t ht hb hc]
  obtain ⟨h0, h1⟩ := root_low sqrt hsqrt b c t ht hb hc
  obtain ⟨h2, h3⟩ := root_high sqrt hsqrt b c t ht hb hc
  have : t * sqrt (c * (b / t) / t + 1) = sqrt t * sqrt (t + c * (b / t)) := by
    rcases mul_self_eq_mul_self_iff.mp (h1.trans h3.symm) with h | h
    · exact h
    · have hz : t * sqrt (c * (b / t) / t + 1) = 0 := by linarith
      have hz2 : sqrt t * sqrt (t + c * (b / t)) = 0 := by linarith
      rw [hz, hz2]
  rw [this]

theorem two_by_two_values {K : Type} [LinearOrderedField K] (a b c s : K)
    (ha : 0 ≤ a) (hb : 0 < b) (hc : 0 ≤ c) (hac : c ≤ a) (hs0 : 0 ≤ s)
    (hs : s * s + 2 * ((a - c + b) * (1 / 2)) * s = c * b) :
    a + (s + b) + c * (a / (a + (s + b))) = a + b + c ∧
    (a + (s + b)) * (c * (a / (a + (s + b)))) = a * c ∧
    0 ≤ c * (a / (a + (s + b))) ∧
    c * (a / (a + (s + b))) ≤ a + (s + b) := by
  have hT : 0 < a + (s + b) := by positivity
  have hT0 : a + (s + b) ≠ 0 := ne_of_gt hT
  refine ⟨?_, ?_, by positivity, ?_⟩
  · field_simp
    linear_combination hs
  · field_simp
    ring
  · rw [mul_div_assoc', div_le_iff₀ hT]
    nlinarith [mul_nonneg ha (sub_nonneg.mpr hac), mul_nonneg ha hs0, mul_nonneg ha (le_of_lt hb),
      mul_nonneg hs0 hs0, mul_nonneg hs0 (le_of_lt hb), mul_pos hb hb, mul_nonneg hs0 ha]

theorem root_props {K : Type} [LinearOrderedField K] (b c t R : K)
    (ht : 0 < t) (hb : 0 ≤ b) (hc : 0 ≤ c) (hR : 0 ≤ R) (hR2 : R * R = t * t + c * b) :
    0 ≤ R - t ∧ (R - t) * (R - t) + 2 * t * (R - t) = c * b := by
  refine ⟨?_, by linear_combination hR2⟩
  by_contra hlt
  have h1 : R < t := by linarith
  have h2 : R * R < t * t := by nlinarith
  have h3 : 0 ≤ c * b := mul_nonneg hc hb
  linarith

theorem twoShift_props {K : Type} [LinearOrderedField K] (sqrt : K → K)
    (hsqrt : ∀ x, 0 ≤ x → 0 ≤ sqrt x ∧ sqrt x * sqrt x = x) (b c t : K)
    (ht : 0 < t) (hb : 0 ≤ b) (hc : 0 ≤ c) (s1 : K)
    (hs1 : s1 = if c * (b / t) ≤ t then odsq2ShiftLow sqrt c b t (c * (b / t))
      else odsq2ShiftHigh sqrt c b t (c * (b / t))) :
    0 ≤ s1 ∧ s1 * s1 + 2 * t * s1 = c * b := by
  have hlow := shiftLow_eq sqrt hsqrt b c t ht hb hc
  obtain ⟨h0, h1⟩ := root_low sqrt hsqrt b c t ht hb hc
  have hagree := shift_branches_agree sqrt hsqrt b c t ht hb hc
  have : s1 = t * sqrt (c * (b / t) / t + 1) - t := by
    rw [hs1]
    split
    · exact hlow
    · rw [← hagree]; exact hlow
  rw [this]
  exact root_props b c t _ ht hb hc h0 h1

theorem twoFinish_spec {K : Type} [LinearOrderedField K] (sqrt : K → K)
    (hsqrt : ∀ x, 0 ≤ x → 0 ≤ sqrt x ∧ sqrt x * sqrt x = x) (tol2 : K) (z : Nat → K)
    (hc : 0 ≤ z 3) (hac : z 3 ≤ z 1) (hb : 0 < z 2) (hcond : z 2 > z 3 * tol2) :
    odsq2TwoFinish sqrt tol2 z 1 + odsq2TwoFinish sqrt tol2 z 2 = z 1 + z 2 + z 3 ∧
    odsq2TwoFinish sqrt tol2 z 1 * odsq2TwoFinish sqrt tol2 z 2 = z 1 * z 3 ∧
    0 ≤ odsq2TwoFinish sqrt tol2 z 2 ∧
    odsq2TwoFinish sqrt tol2 z 2 ≤ odsq2TwoFinish sqrt tol2 z 1 ∧
    odsq2TwoFinish sqrt tol2 z 5 = z 1 + z 2 + z 3 ∧
    odsq2TwoFinish sqrt tol2 z 6 =
      odsq2TwoFinish sqrt tol2 z 1 + odsq2TwoFinish sqrt tol2 z 2 := by
  have ha : 0 ≤ z 1 := le_trans hc hac
  have ht : 0 < (z 1 - z 3 + z 2) * (1 / 2) := by
    have : 0 < z 1 - z 3 + z 2 := by linarith
    positivity
  obtain ⟨hs0, hs⟩ := twoShift_props sqrt hsqrt (z 2) (z 3) _ ht (le_of_lt hb) hc _ rfl
  obtain ⟨h1, h2, h3, h4⟩ := two_by_two_values (z 1) (z 2) (z 3) _ ha hb hc hac hs0 hs
  have e1 : odsq2TwoFinish sqrt tol2 z 1 =
      z 1 + ((if z 3 * (z 2 / ((z 1 - z 3 + z 2) * (1 / 2))) ≤ (z 1 - z 3 + z 2) * (1 / 2) then
        odsq2ShiftLow sqrt (z 3) (z 2) ((z 1 - z 3 + z 2) * (1 / 2))
          (z 3 * (z 2 / ((z 1 - z 3 + z 2) * (1 / 2))))
      else odsq2ShiftHigh sqrt (z 3) (z 2) ((z 1 - z 3 + z 2) * (1 / 2))
          (z 3 * (z 2 / ((z 1 - z 3 + z 2) * (1 / 2))))) + z 2) := by
    simp [odsq2TwoFinish, odsq2TwoShift, Function.update, hcond]
  have e2 : odsq2TwoFinish sqrt tol2 z 2 = z 3 * (z 1 / odsq2TwoFinish sqrt tol2 z 1) := by
    rw [e1]
    simp [odsq2TwoFinish, odsq2TwoShift, Function.update, hcond]
  have e5 : odsq2TwoFinish sqrt tol2 z 5 = z 1 + z 2 + z 3 := by
    simp [odsq2TwoFinish, odsq2TwoShift, Function.update, hcond]
  have e6 : odsq2TwoFinish sqrt tol2 z 6 =
      odsq2TwoFinish sqrt tol2 z 2 + odsq2TwoFinish sqrt tol2 z 1 := by
    simp [odsq2TwoFinish, Function.update]
  rw [e6, e5, e2, e1]
  exact ⟨h1, h2, h3, h4, rfl, by ring⟩

/-- C26: in exact arithmetic with a square root, for `n = 2` and non-negative
`q1 = Z(1)`, `e1 = Z(2)`, `q2 = Z(3)` with `e1 > min(q1, q2) * tol^2`, `odsq2`
returns `INFO = 0` with `Z(1) ≥ Z(2) ≥ 0`, `Z(1) + Z(2) = q1 + e1 + q2 = Z(5)`,
`Z(1) * Z(2) = q1 * q2` and `Z(6) = Z(1) + Z(2)`; and the two branches of the
computation of the shift give the same value of `s`. -/
theorem odsq2_two_by_two_eigenvalues {K : Type} [LinearOrderedField K] (sqrt : K → K) (eps : K)
    (odsrt : Nat → (Nat → K) → Nat → K) (z : Nat → K)
    (hsqrt : ∀ x, 0 ≤ x → 0 ≤ sqrt x ∧ sqrt x * sqrt x = x)
    (hq1 : 0 ≤ z 1) (he1 : 0 ≤ z 2) (hq2 : 0 ≤ z 3)
    (hbig : z 2 > min (z 1) (z 3) * (eps * 100 * (eps * 100))) :
    (∃ z1 : Nat → K, odsq2 sqrt eps odsrt 2 z = Odsq2Exit.returned z1 0 ∧
      z1 2 ≤ z1 1 ∧ 0 ≤ z1 2 ∧
      z1 1 + z1 2 = z 1 + z 2 + z 3 ∧ z1 5 = z 1 + z 2 + z 3 ∧
      z1 1 * z1 2 = z 1 * z 3 ∧ z1 6 = z1 1 + z1 2) ∧
    odsq2ShiftLow sqrt (min (z 1) (z 3)) (z 2)
        ((max (z 1) (z 3) - min (z 1) (z 3) + z 2) * (1 / 2))
        (min (z 1) (z 3) * (z 2 / ((max (z 1) (z 3) - min (z 1) (z 3) + z 2) * (1 / 2)))) =
      odsq2ShiftHigh sqrt (min (z 1) (z 3)) (z 2)
        ((max (z 1) (z 3) - min (z 1) (z 3) + z 2) * (1 / 2))
        (min (z 1) (z 3) * (z 2 / ((max (z 1) (z 3) - min (z 1) (z 3) + z 2) * (1 / 2)))) := by
  have htol : 0 ≤ eps * 100 * (eps * 100) := mul_self_nonneg _
  have hmin : 0 ≤ min (z 1) (z 3) := le_min hq1 hq2
  have hb : 0 < z 2 := lt_of_le_of_lt (mul_nonneg hmin htol) hbig
  have hneg : ¬ (z 2 < 0 ∨ z 3 < 0) := by
    rintro (h | h) <;> linarith
  constructor
  · by_cases hswap : z 3 > z 1
    · have hm : min (z 1) (z 3) = z 1 := min_eq_left (le_of_lt hswap)
      rw [hm] at hbig
      have h1 : (Function.update (Function.update z 3 (z 1)) 1 (z 3)) 1 = z 3 := by
        simp [Function.update]
      have h2 : (Function.update (Function.update z 3 (z 1)) 1 (z 3)) 2 = z 2 := by
        simp [Function.update]
      have h3 : (Function.update (Function.update z 3 (z 1)) 1 (z 3)) 3 = z 1 := by
        simp [Function.update]
      have hspec := twoFinish_spec sqrt hsqrt (eps * 100 * (eps * 100))
        (Function.update (Function.update z 3 (z 1)) 1 (z 3))
        (by rw [h3]; exact hq1) (by rw [h3, h1]; exact le_of_lt hswap)
        (by rw [h2]; exact hb) (by rw [h2, h3]; exact hbig)
      rw [h1, h2, h3] at hspec
      obtain ⟨e1, e2, e3, e4, e5, e6⟩ := hspec
      refine ⟨_, ?_, e4, e3, ?_, ?_, ?_, e6⟩
      · simp [odsq2, odsq2Two, hneg, hswap]
      · rw [e1]; ring
      · rw [e5]; ring
      · rw [e2]; ring
    · have hle : z 3 ≤ z 1 := not_lt.mp hswap
      have hm : min (z 1) (z 3) = z 3 := min_eq_right hle
      rw [hm] at hbig
      obtain ⟨e1, e2, e3, e4, e5, e6⟩ := twoFinish_spec sqrt hsqrt (eps * 100 * (eps * 100)) z
        hq2 hle hb hbig
      refine ⟨_, ?_, e4, e3, e1, e5, e2, e6⟩
      simp [odsq2, odsq2Two, hneg, hswap]
  · have ht : 0 < (max (z 1) (z 3) - min (z 1) (z 3) + z 2) * (1 / 2) := by
      have : min (z 1) (z 3) ≤ max (z 1) (z 3) := min_le_max
      have : 0 < max (z 1) (z 3) - min (z 1) (z 3) + z 2 := by linarith
      positivity
    exact shift_branches_agree sqrt hsqrt (z 2) (min (z 1) (z 3)) _ ht he1 hmin

/-- C26 (witness): over the real numbers with their square root, for
`Z = (1, 1, 1)` the routine returns two values whose sum is 3 and whose
product is 1. -/
theorem odsq2_two_by_two_eigenvalues_witness :
    ∃ z1 : Nat → ℝ,
      odsq2 Real.sqrt 0 (fun _ z => z) 2 (fun _ => 1) = Odsq2Exit.returned z1 0 ∧
      z1 2 ≤ z1 1 ∧ 0 ≤ z1 2 ∧ z1 1 + z1 2 = 1 + 1 + 1 ∧ z1 5 = 1 + 1 + 1 ∧
      z1 1 * z1 2 = 1 * 1 ∧ z1 6 = z1 1 + z1 2 :=
  (odsq2_two_by_two_eigenvalues Real.sqrt 0 (fun _ z => z) (fun _ => 1)
    (fun x hx => ⟨Real.sqrt_nonneg x, Real.mul_self_sqrt hx⟩)
    zero_le_one zero_le_one zero_le_one (by norm_num)).1

/-- C24 (behaviour of the code): for `n = 2` and `Z = (1, -1, 1)` the routine
sets `INFO = -2`, not `-(200 + 2)`; for `n = 2` and `Z = (-1, 1, 1)` it sets
`INFO = 0` although `Z(1)` is negative; for `n = 3` and `Z = (3, 0, 2, -4, 1)`
it sets `INFO = -204`, as documented. -/
theorem odsq2_two_by_two_info (sqrt : Rat → Rat) :
    (odsq2 sqrt dblEpsilon sortDecreasing 2 (arrayOf [1, -1, 1])).info = some (-2) ∧
    (odsq2 sqrt dblEpsilon sortDecreasing 2 (arrayOf [-1, 1, 1])).info = some 0 ∧
    (odsq2 sqrt dblEpsilon sortDecreasing 3 (arrayOf [3, 0, 2, -4, 1])).info = some (-204) := by
  have h3 : (3 : Int).toNat = 3 := rfl
  refine ⟨?_, ?_, ?_⟩
  · simp [odsq2, odsq2Two, arrayOf, Odsq2Exit.info]
  · norm_num [odsq2, odsq2Two, arrayOf, Odsq2Exit.info]
  · norm_num [odsq2, odsq2General, odsq2Check, arrayOf, Function.update, h3, Odsq2Exit.info]

/-- C25 (behaviour of the code): for `n = 3` and the diagonal input
`Z = (1, 0, 3, 0, 2, 0, 7)` the routine returns `INFO = 0` with the
eigenvalues 3, 2, 1 in `Z(1..3)` and the trace 6 in `Z(5)`, that is in
`Z(2N-1)`; `Z(7)`, that is `Z(2N+1)`, still holds its input value 7. -/
theorem odsq2_diagonal_trace_slot (sqrt : Rat → Rat) :
    (odsq2 sqrt dblEpsilon sortDecreasing 3 (arrayOf [1, 0, 3, 0, 2, 0, 7])).info = some 0 ∧
    (odsq2 sqrt dblEpsilon sortDecreasing 3 (arrayOf [1, 0, 3, 0, 2, 0, 7])).z 1 = 3 ∧
    (odsq2 sqrt dblEpsilon sortDecreasing 3 (arrayOf [1, 0, 3, 0, 2, 0, 7])).z 2 = 2 ∧
    (odsq2 sqrt dblEpsilon sortDecreasing 3 (arrayOf [1, 0, 3, 0, 2, 0, 7])).z 3 = 1 ∧
    (odsq2 sqrt dblEpsilon sortDecreasing 3 (arrayOf [1, 0, 3, 0, 2, 0, 7])).z 5 = 6 ∧
    (odsq2 sqrt dblEpsilon sortDecreasing 3 (arrayOf [1, 0, 3, 0, 2, 0, 7])).z 7 = 7 := by
  have h3 : (3 : Int).toNat = 3 := rfl
  have h : odsq2 sqrt dblEpsilon sortDecreasing 3 (arrayOf [1, 0, 3, 0, 2, 0, 7]) =
      Odsq2Exit.returned (Function.update (sortDecreasing 3
        (odsq2MoveFront (Function.update (arrayOf [1, 0, 3, 0, 2, 0, 7]) 6 0) 2 2)) 5 6) 0 := by
    norm_num [odsq2, odsq2General, odsq2Check, arrayOf, Function.update, h3]
  rw [h]
  refine ⟨rfl, ?_, ?_, ?_, ?_, ?_⟩ <;>
    norm_num [Odsq2Exit.z, sortDecreasing, odsq2MoveFront, arrayOf, Function.update,
      List.range_succ, List.insertionSort, List.orderedInsert]

end pmrrr
